import Mathlib

/-!
# ADS1115 driver (`7semi_ADS1xx5`): embedding and verified properties

The driver class `ADS1xx5_7semi` (src/src/7semi_ADS1xx5.cpp, .h) is embedded as
pure functions that thread the state of the bus transport explicitly.

* `uint8_t` / `uint16_t` values are `Nat`, reduced `% 256` / `% 65536` where the
  C++ code converts to the narrower type.
* `int16_t` values are `Int`; `toInt16` is the two's-complement reinterpretation
  of a 16-bit pattern, `toUInt16` the conversion back.
* `float` values are `ℚ`.  A literal such as `6.144` is kept as the decimal it
  denotes; where it enters float arithmetic it is rounded to binary32 by
  `round32`, as is the result of every float operation (round to nearest, ties
  to even, 24-bit significand, subnormals below 2^-126).  Infinities and NaN do
  not arise for the values handled here and are not represented.
* The busy-wait loops take a fuel argument (number of polls allowed).
-/

namespace ADS1xx5

/-! ## Constants of `7semi_ADS1xx5.h` -/

def REG_CONVERSION : Nat := 0x00
def REG_CONFIG : Nat := 0x01
def REG_LO_THRESH : Nat := 0x02
def REG_HI_THRESH : Nat := 0x03

def PGA_6_144V : Nat := 0x0 <<< 9
def PGA_4_096V : Nat := 0x1 <<< 9
def PGA_2_048V : Nat := 0x2 <<< 9
def PGA_1_024V : Nat := 0x3 <<< 9
def PGA_0_512V : Nat := 0x4 <<< 9
def PGA_0_256V : Nat := 0x5 <<< 9

def MODE_CONTINUOUS : Nat := 0x0 <<< 8
def MODE_SINGLESHOT : Nat := 0x1 <<< 8

def DR_128SPS : Nat := 0x4 <<< 5
def DR_860SPS : Nat := 0x7 <<< 5

def COMP_MODE_TRAD : Nat := 0x0 <<< 4
def COMP_MODE_WINDOW : Nat := 0x1 <<< 4
def COMP_POL_LOW : Nat := 0x0 <<< 3
def COMP_POL_HIGH : Nat := 0x1 <<< 3
def COMP_LAT_NON : Nat := 0x0 <<< 2
def COMP_LAT_LATCH : Nat := 0x1 <<< 2
def COMP_QUE_DISABLE : Nat := 0x3 <<< 0

def OS_SINGLE : Nat := 0x1 <<< 15

def MUX_DIFF_AIN0_AIN1 : Nat := 0x0 <<< 12
def MUX_DIFF_AIN0_AIN3 : Nat := 0x1 <<< 12
def MUX_DIFF_AIN1_AIN3 : Nat := 0x2 <<< 12
def MUX_DIFF_AIN2_AIN3 : Nat := 0x3 <<< 12

def MUX_SINGLE_AIN0 : Nat := 0x4 <<< 12
def MUX_SINGLE_AIN1 : Nat := 0x5 <<< 12
def MUX_SINGLE_AIN2 : Nat := 0x6 <<< 12
def MUX_SINGLE_AIN3 : Nat := 0x7 <<< 12

/-! ## Machine integers -/

/-- Conversion of an integer to `uint16_t` (reduction modulo 2^16). -/
def toUInt16 (x : Int) : Nat := (x % 65536).toNat

/-- The cast `(int16_t)u` of a 16-bit pattern: two's-complement reinterpretation. -/
def toInt16 (u : Nat) : Int :=
  if u % 65536 < 32768 then ((u % 65536 : Nat) : Int) else ((u % 65536 : Nat) : Int) - 65536

/-- Bitwise complement `~x` as seen after truncation to `uint16_t`. -/
def not16 (x : Nat) : Nat := 0xFFFF ^^^ (x % 65536)

/-! ## Binary32 arithmetic -/

/-- Rounding of a rational to the nearest integer, ties to the even one. -/
def roundHalfEven (y : ℚ) : Int :=
  let f := ⌊y⌋
  let r := y - f
  if r < 1 / 2 then f
  else if 1 / 2 < r then f + 1
  else if f % 2 = 0 then f else f + 1

/-- Rounding of an exact value to binary32 (IEEE 754 single precision), round to
nearest, ties to even: the value is scaled by the power of two that brings its
magnitude into [2^23, 2^24) (at least 2^-149, the subnormal spacing), rounded to
an integer and scaled back. -/
def round32 (x : ℚ) : ℚ :=
  if x = 0 then 0 else
  let e : Int := max (Int.log 2 |x| - 23) (-149)
  (roundHalfEven (x / 2 ^ e) : ℚ) * 2 ^ e

/-! ## The bus transport and the simulated device -/

/-- One entry of the transaction log kept by the simulated transport. -/
inductive Event where
  | init : Event
  | transmit (addr : Nat) (bytes : List Nat) (status : Nat) : Event
  | request (addr : Nat) (quantity : Nat) (received : Nat) : Event
  deriving DecidableEq, Repr

/-- Modelled from the spec: the external transport (`TwoWire` of the Arduino
core, not part of this repository) together with the simulated device behind
it, as an in-memory register file (spec sections 6 and 9).  `conversion`,
`config`, `loThresh`, `hiThresh` are the four device registers, `pointer` the
device's address-pointer register.  `txAddr`/`txBuf` hold the transmission being
assembled, `rxBuf` the bytes received by the last request.  `log` is the
transaction log, newest entry first.  The last three fields are the
environment: `ack t` is the status `endTransmission` returns when the log has
`t` entries, `avail t` the number of bytes the device is able to supply to a
request at that time, `reply t reg stored` the 16-bit word the device puts on
the wire when register `reg`, holding `stored`, is read at that time. -/
structure TwoWire where
  conversion : Nat
  config : Nat
  loThresh : Nat
  hiThresh : Nat
  pointer : Nat
  txAddr : Nat
  txBuf : List Nat
  rxBuf : List Nat
  log : List Event
  ack : Nat → Nat
  avail : Nat → Nat
  reply : Nat → Nat → Nat → Nat

namespace TwoWire

/-- Content of the device register at address `reg` (0 for an unmapped address). -/
def getReg (w : TwoWire) (reg : Nat) : Nat :=
  match reg with
  | 0 => w.conversion
  | 1 => w.config
  | 2 => w.loThresh
  | 3 => w.hiThresh
  | _ => 0

/-- Store `v` in the device register at address `reg` (no effect for an unmapped address). -/
def setReg (w : TwoWire) (reg : Nat) (v : Nat) : TwoWire :=
  match reg with
  | 0 => { w with conversion := v }
  | 1 => { w with config := v }
  | 2 => { w with loThresh := v }
  | 3 => { w with hiThresh := v }
  | _ => w

/-- Effect on the device of an acknowledged transmission: the first byte sets
the address pointer, two further bytes are stored big-endian in that register. -/
def deliver (w : TwoWire) (bytes : List Nat) : TwoWire :=
  match bytes with
  | [] => w
  | reg :: hi :: lo :: _ => setReg { w with pointer := reg } reg (hi * 256 + lo)
  | reg :: _ => { w with pointer := reg }

/-- Modelled from the spec: `Wire.begin()`, the begin-session operation. -/
def begin (w : TwoWire) : TwoWire :=
  { w with log := Event.init :: w.log }

/-- Modelled from the spec: `Wire.beginTransmission(addr)`, open a transaction to an address. -/
def beginTransmission (w : TwoWire) (addr : Nat) : TwoWire :=
  { w with txAddr := addr % 256, txBuf := [] }

/-- Modelled from the spec: `Wire.write(b)`, queue one byte (argument converted to `uint8_t`). -/
def write (w : TwoWire) (b : Nat) : TwoWire :=
  { w with txBuf := w.txBuf ++ [b % 256] }

/-- Modelled from the spec: `Wire.endTransmission()`, send the queued bytes and
return the status (0 = acknowledged).  The device acts on the bytes only when
the transmission is acknowledged. -/
def endTransmission (w : TwoWire) : Nat × TwoWire :=
  let st := w.ack w.log.length
  let w1 := if st = 0 then deliver w w.txBuf else w
  (st, { w1 with log := Event.transmit w.txAddr w.txBuf st :: w.log, txBuf := [] })

/-- Modelled from the spec: `Wire.requestFrom(addr, quantity)`, request bytes
and return how many were received.  The device offers the two bytes of the
word selected by its address pointer, high byte first. -/
def requestFrom (w : TwoWire) (addr : Nat) (quantity : Nat) : Nat × TwoWire :=
  let word := w.reply w.log.length w.pointer (getReg w w.pointer)
  let data := [word / 256 % 256, word % 256]
  let rx := data.take (min (w.avail w.log.length) quantity)
  (rx.length, { w with rxBuf := rx, log := Event.request (addr % 256) quantity rx.length :: w.log })

/-- Modelled from the spec: `Wire.read()`, next received byte, or -1 when none is left. -/
def read (w : TwoWire) : Int × TwoWire :=
  match w.rxBuf with
  | [] => (-1, w)
  | b :: rest => ((b : Int), { w with rxBuf := rest })

end TwoWire

/-! ## The driver `ADS1xx5_7semi` -/

/-- The driver object: it holds only the bus address (`_address`); the
transport `_wire` is threaded through every operation. -/
structure ADS1xx5_7semi where
  address : Nat

namespace ADS1xx5_7semi

/-- Source: `bool writeReg(uint8_t reg, uint16_t value)`. -/
def writeReg (d : ADS1xx5_7semi) (reg : Nat) (value : Nat) (w : TwoWire) : Bool × TwoWire :=
  let value := value % 65536
  let w := w.beginTransmission d.address
  let w := w.write reg
  let w := w.write (value >>> 8)
  let w := w.write (value &&& 0xFF)
  let (st, w) := w.endTransmission
  (st == 0, w)

/-- Source: `uint16_t readReg(uint8_t reg)`. -/
def readReg (d : ADS1xx5_7semi) (reg : Nat) (w : TwoWire) : Nat × TwoWire :=
  let w := w.beginTransmission d.address
  let w := w.write reg
  let (st, w) := w.endTransmission
  if st != 0 then (0xFFFF, w) else
  let (n, w) := w.requestFrom d.address 2
  if n != 2 then (0xFFFF, w) else
  let (b0, w) := w.read
  let value := toUInt16 (b0 * 256)
  let (b1, w) := w.read
  let value := value ||| toUInt16 b1
  (value, w)

/-- Source: `bool begin()`. -/
def begin (d : ADS1xx5_7semi) (w : TwoWire) : Bool × TwoWire :=
  let w := w.begin
  let w := w.beginTransmission d.address
  let (st, w) := w.endTransmission
  if st != 0 then (false, w) else
  let config :=
    OS_SINGLE |||
    MUX_SINGLE_AIN0 |||
    PGA_2_048V |||
    MODE_SINGLESHOT |||
    DR_128SPS |||
    COMP_MODE_TRAD |||
    COMP_POL_LOW |||
    COMP_LAT_NON |||
    COMP_QUE_DISABLE
  writeReg d REG_CONFIG config w

/-- Source: `void setLowThreshold(int16_t value)`. -/
def setLowThreshold (d : ADS1xx5_7semi) (value : Int) (w : TwoWire) : TwoWire :=
  (writeReg d REG_LO_THRESH (toUInt16 value) w).2

/-- Source: `void setHighThreshold(int16_t value)`. -/
def setHighThreshold (d : ADS1xx5_7semi) (value : Int) (w : TwoWire) : TwoWire :=
  (writeReg d REG_HI_THRESH (toUInt16 value) w).2

/-- Source: `int16_t getLowThreshold()`. -/
def getLowThreshold (d : ADS1xx5_7semi) (w : TwoWire) : Int × TwoWire :=
  let (v, w) := readReg d REG_LO_THRESH w
  (toInt16 v, w)

/-- Source: `int16_t getHighThreshold()`. -/
def getHighThreshold (d : ADS1xx5_7semi) (w : TwoWire) : Int × TwoWire :=
  let (v, w) := readReg d REG_HI_THRESH w
  (toInt16 v, w)

/-- Source: `bool setRefV(uint16_t pga_bits)`. -/
def setRefV (d : ADS1xx5_7semi) (pga_bits : Nat) (w : TwoWire) : Bool × TwoWire :=
  let pga_bits := pga_bits % 65536
  let (config, w) := readReg d REG_CONFIG w
  let config := config &&& not16 (0x07 <<< 9)
  let config := config ||| pga_bits
  writeReg d REG_CONFIG config w

/-- The `switch (pga)` of `getRefV`. -/
def refVOfPga (pga : Nat) : ℚ :=
  match pga with
  | 0 => 6.144
  | 1 => 4.096
  | 2 => 2.048
  | 3 => 1.024
  | 4 => 0.512
  | _ => 0.256

/-- Source: `float getRefV()`. -/
def getRefV (d : ADS1xx5_7semi) (w : TwoWire) : ℚ × TwoWire :=
  let (config, w) := readReg d REG_CONFIG w
  let pga := (config >>> 9) &&& 0x07
  (refVOfPga pga, w)

/-- The loop `while ((readReg(REG_CONFIG) & OS_SINGLE) == 0);` with at most
`fuel` polls: `true` when a poll saw the bit set, `false` when the fuel ran out. -/
def waitReady (d : ADS1xx5_7semi) : Nat → TwoWire → Bool × TwoWire
  | 0, w => (false, w)
  | fuel + 1, w =>
    let (v, w) := readReg d REG_CONFIG w
    if v &&& OS_SINGLE = 0 then waitReady d fuel w else (true, w)

/-- Source: `int16_t readRawCH(uint8_t channel)`; `none` when the polling loop used up its fuel. -/
def readRawCH (d : ADS1xx5_7semi) (fuel : Nat) (channel : Nat) (w : TwoWire) :
    Option Int × TwoWire :=
  if channel > 3 then (some 0, w) else
  let mux := ((0x4 + channel) <<< 12) % 65536
  let (cfg, w) := readReg d REG_CONFIG w
  let config :=
    OS_SINGLE |||
    mux |||
    (cfg &&& (0x07 <<< 9)) |||
    MODE_SINGLESHOT |||
    DR_128SPS |||
    COMP_MODE_TRAD |||
    COMP_POL_LOW |||
    COMP_LAT_NON |||
    COMP_QUE_DISABLE
  let (_, w) := writeReg d REG_CONFIG config w
  let (done, w) := waitReady d fuel w
  if done then
    let (v, w) := readReg d REG_CONVERSION w
    (some (toInt16 v), w)
  else (none, w)

/-- Source: `float readCH(uint8_t channel)`; `none` when the polling loop used up its fuel.
`float vref = getRefV()` is the binary32 value of the literal, `vref / 32768.0`
is narrowed to the `float lsb`, and `raw * lsb` is a float product. -/
def readCH (d : ADS1xx5_7semi) (fuel : Nat) (channel : Nat) (w : TwoWire) :
    Option ℚ × TwoWire :=
  match readRawCH d fuel channel w with
  | (none, w) => (none, w)
  | (some raw, w) =>
    let (vref, w) := getRefV d w
    let vref := round32 vref
    let lsb := round32 (vref / 32768)
    (some (round32 ((raw : ℚ) * lsb)), w)

/-- Source: `float readDiff(uint8_t mux_setting)`; `none` when the polling loop used up its
fuel.  The float arithmetic is that of `readCH`. -/
def readDiff (d : ADS1xx5_7semi) (fuel : Nat) (mux_setting : Nat) (w : TwoWire) :
    Option ℚ × TwoWire :=
  if mux_setting > 3 then (some 0, w) else
  let mux := ((mux_setting &&& 0x07) <<< 12) % 65536
  let (cfg, w) := readReg d REG_CONFIG w
  let config :=
    OS_SINGLE |||
    mux |||
    (cfg &&& (0x07 <<< 9)) |||
    MODE_SINGLESHOT |||
    DR_128SPS |||
    COMP_MODE_TRAD |||
    COMP_POL_LOW |||
    COMP_LAT_NON |||
    COMP_QUE_DISABLE
  let (_, w) := writeReg d REG_CONFIG config w
  let (done, w) := waitReady d fuel w
  if done then
    let (v, w) := readReg d REG_CONVERSION w
    let raw := toInt16 v
    let (vref, w) := getRefV d w
    let vref := round32 vref
    let lsb := round32 (vref / 32768)
    (some (round32 ((raw : ℚ) * lsb)), w)
  else (none, w)

end ADS1xx5_7semi

/-! ## Observations on the transaction log -/

/-- The register write carried by a log entry: a transmission of an address
byte followed by two data bytes, decoded big-endian. -/
def Event.regWrite : Event → Option (Nat × Nat)
  | Event.transmit _ (reg :: hi :: lo :: _) _ => some (reg, hi * 256 + lo)
  | _ => none

/-- All register writes issued so far, newest first, as (register, value) pairs. -/
def writesOf (log : List Event) : List (Nat × Nat) := log.filterMap Event.regWrite

/-- The register read started by a log entry: a transmission of the address byte alone. -/
def Event.regRead : Event → Option Nat
  | Event.transmit _ [reg] _ => some reg
  | _ => none

/-- All register reads started so far, newest first. -/
def readsOf (log : List Event) : List Nat := log.filterMap Event.regRead

/-- The transport is transparent: every transmission is acknowledged, every
request is served in full and a register read returns the stored value. -/
def Transparent (w : TwoWire) : Prop :=
  (∀ t, w.ack t = 0) ∧ (∀ t, 2 ≤ w.avail t) ∧ (∀ t reg v, w.reply t reg v = v)

/-- A transparent transport in front of a device with the given register contents. -/
def simBus (conversion config loThresh hiThresh : Nat) : TwoWire :=
  { conversion := conversion, config := config, loThresh := loThresh, hiThresh := hiThresh,
    pointer := 0, txAddr := 0, txBuf := [], rxBuf := [], log := [],
    ack := fun _ => 0, avail := fun _ => 2, reply := fun _ _ v => v }

/-- The three bytes that `writeReg reg value` queues (lines 42-44 of the source). -/
def writeBytes (reg value : Nat) : List Nat :=
  [reg % 256, ((value % 65536) >>> 8) % 256, ((value % 65536) &&& 0xFF) % 256]

/-- The fixed mapping of the specification from gain code to full-scale range in volts. -/
def gainTable : List ℚ := [6.144, 4.096, 2.048, 1.024, 0.512, 0.256]

/-- The configuration word composed by `readRawCH` and `readDiff` (source lines
117-126 and 141-150) from the multiplexer bits and the configuration read back. -/
def convConfig (mux cfg : Nat) : Nat :=
  OS_SINGLE |||
  mux |||
  (cfg &&& (0x07 <<< 9)) |||
  MODE_SINGLESHOT |||
  DR_128SPS |||
  COMP_MODE_TRAD |||
  COMP_POL_LOW |||
  COMP_LAT_NON |||
  COMP_QUE_DISABLE

/-! ## Fields of the configuration register

Bit positions as given in `7semi_ADS1xx5.h`: OS bit 15, MUX bits 14:12, PGA bits
11:9, MODE bit 8, DR bits 7:5, COMP_MODE bit 4, COMP_POL bit 3, COMP_LAT bit 2,
COMP_QUE bits 1:0. -/

def fieldOS (c : Nat) : Nat := (c >>> 15) &&& 0x1
def fieldMUX (c : Nat) : Nat := (c >>> 12) &&& 0x7
def fieldPGA (c : Nat) : Nat := (c >>> 9) &&& 0x7
def fieldMODE (c : Nat) : Nat := (c >>> 8) &&& 0x1
def fieldDR (c : Nat) : Nat := (c >>> 5) &&& 0x7
def fieldCOMP_MODE (c : Nat) : Nat := (c >>> 4) &&& 0x1
def fieldCOMP_POL (c : Nat) : Nat := (c >>> 3) &&& 0x1
def fieldCOMP_LAT (c : Nat) : Nat := (c >>> 2) &&& 0x1
def fieldCOMP_QUE (c : Nat) : Nat := (c >>> 0) &&& 0x3

/-! ## Faulty and unresponsive environments -/

/-- The device never reports a finished conversion: every transmission is
acknowledged and every request is served in full, so that every register read
succeeds, and the configuration register never reads back with bit 15 set. -/
def NeverReady (w : TwoWire) : Prop :=
  (∀ t, w.ack t = 0) ∧ (∀ t, 2 ≤ w.avail t) ∧
  (∀ t v, (w.reply t REG_CONFIG v % 65536) &&& OS_SINGLE = 0)

/-- Every register read fails: whenever a read is started, either its address
phase is not acknowledged or the request that follows returns fewer than two
bytes.  Nothing is said about register writes. -/
def AllReadsFail (w : TwoWire) : Prop :=
  ∀ t, w.ack t ≠ 0 ∨ w.avail (t + 1) < 2

/-- The device reports the conversion complete after `k` busy polls: every
transmission is acknowledged and every request served in full, the conversion
register reads back as stored, the gain field of the configuration register
reads back as stored, the first `k` polls of a conversion started now (the
polls are answered when the log has `w.log.length + 4 + 2 * j` entries) see
bit 15 clear, and the next poll sees bit 15 set, the start bit having been
written. -/
def ReportsComplete (w : TwoWire) (k : Nat) : Prop :=
  (∀ t, w.ack t = 0) ∧ (∀ t, 2 ≤ w.avail t) ∧
  (∀ t v, w.reply t REG_CONVERSION v = v) ∧
  (∀ t v, w.reply t REG_CONFIG v &&& 0x0E00 = v &&& 0x0E00) ∧
  (∀ j v, j < k →
    (w.reply (w.log.length + 4 + 2 * j) REG_CONFIG v % 65536) &&& OS_SINGLE = 0) ∧
  (∀ v, v < 65536 → v &&& OS_SINGLE ≠ 0 →
    (w.reply (w.log.length + 4 + 2 * k) REG_CONFIG v % 65536) &&& OS_SINGLE ≠ 0)

/-- A device, with an empty log, that acknowledges everything, reads back bit 15 of
the configuration register clear for the first `k` polls of a conversion and
reads back every register as stored otherwise. -/
def slowBus (k conversion config loThresh hiThresh : Nat) : TwoWire :=
  { simBus conversion config loThresh hiThresh with
    reply := fun t reg v => if reg = 1 ∧ t < 4 + 2 * k then v &&& 0x7FFF else v }

/-- The binary32 value of the literal `getRefV` returns for gain code `pga`. -/
def refV32 (pga : Nat) : ℚ :=
  match pga with
  | 0 => 12884902 / 2 ^ 21
  | 1 => 8589935 / 2 ^ 21
  | 2 => 8589935 / 2 ^ 22
  | 3 => 8589935 / 2 ^ 23
  | 4 => 8589935 / 2 ^ 24
  | _ => 8589935 / 2 ^ 25

/-- A device that acknowledges everything but always reads back with bit 15 clear. -/
def busyBus (conversion config loThresh hiThresh : Nat) : TwoWire :=
  { simBus conversion config loThresh hiThresh with reply := fun _ _ v => v &&& 0x7FFF }

/-- A bus on which no transmission is ever acknowledged (status 2). -/
def deadBus (conversion config loThresh hiThresh : Nat) : TwoWire :=
  { simBus conversion config loThresh hiThresh with ack := fun _ => 2 }

/-! ## Arithmetic of the byte split and of the bit fields -/

theorem split16 (v : Nat) (h : v < 65536) :
    (v >>> 8) % 256 * 256 + (v &&& 0xFF) % 256 = v := by
  have e : (0xFF : Nat) = 2 ^ 8 - 1 := by norm_num
  rw [e, Nat.and_pow_two_sub_one_eq_mod, Nat.shiftRight_eq_div_pow]
  omega

theorem join16 (word : Nat) :
    toUInt16 (((word / 256 % 256 : Nat) : Int) * 256) ||| toUInt16 ((word % 256 : Nat) : Int)
      = word % 65536 := by
  have h1 : toUInt16 (((word / 256 % 256 : Nat) : Int) * 256) = 2 ^ 8 * (word / 256 % 256) := by
    unfold toUInt16; omega
  have h2 : toUInt16 ((word % 256 : Nat) : Int) = word % 256 := by
    unfold toUInt16; omega
  rw [h1, h2, ← Nat.mul_add_lt_is_or (by omega)]
  omega

theorem and_gain_mask (x : Nat) : x &&& (0x07 <<< 9) = (x / 512 % 8) * 512 := by
  apply Nat.eq_of_testBit_eq
  intro i
  have e : (0x07 <<< 9 : Nat) = (2 ^ 3 - 1) <<< 9 := by norm_num
  have e2 : (x / 512 % 8) * 512 = ((x >>> 9) % 2 ^ 3) <<< 9 := by
    rw [Nat.shiftLeft_eq, Nat.shiftRight_eq_div_pow]; norm_num
  rw [e, e2]
  simp only [Nat.testBit_and, Nat.testBit_shiftLeft, Nat.testBit_two_pow_sub_one,
    Nat.testBit_mod_two_pow, Nat.testBit_shiftRight]
  by_cases h : 9 ≤ i
  · have : 9 + (i - 9) = i := by omega
    simp [h, this, Bool.and_comm]
  · simp [h]

theorem testBit_gainMask (i : Nat) :
    (3584 : Nat).testBit i = (decide (9 ≤ i) && decide (i < 12)) := by
  have e : (3584 : Nat) = (2 ^ 3 - 1) <<< 9 := by decide
  rw [e, Nat.testBit_shiftLeft, Nat.testBit_two_pow_sub_one]
  by_cases h : 9 ≤ i <;> simp [h]
  omega

theorem testBit_keepMask (i : Nat) :
    (61951 : Nat).testBit i = (decide (i < 16) && !(decide (9 ≤ i) && decide (i < 12))) := by
  have e : (61951 : Nat) = (2 ^ 16 - 1) ^^^ 3584 := by decide
  rw [e, Nat.testBit_xor, Nat.testBit_two_pow_sub_one, testBit_gainMask]
  by_cases h1 : i < 16 <;> by_cases h2 : 9 ≤ i <;> by_cases h3 : i < 12 <;> simp [h1, h2, h3]
  omega

theorem testBit_u16 (p i : Nat) (hp : p < 65536) (hi : 16 ≤ i) : p.testBit i = false := by
  apply Nat.testBit_lt_two_pow
  calc p < 2 ^ 16 := hp
    _ ≤ 2 ^ i := Nat.pow_le_pow_right (by norm_num) hi

theorem setGain_fields (old p : Nat) (hp : p < 65536) (h : p &&& 61951 = 0) :
    ((old &&& 61951) ||| p) &&& 3584 = p ∧
    ((old &&& 61951) ||| p) &&& 61951 = old &&& 61951 := by
  have hb : ∀ i, p.testBit i = true → (9 ≤ i ∧ i < 12) := by
    intro i hi
    have h1 : (p &&& 61951).testBit i = false := by rw [h]; simp
    rw [Nat.testBit_and, testBit_keepMask, hi] at h1
    by_cases h16 : i < 16
    · simpa [h16] using h1
    · rw [testBit_u16 p i hp (by omega)] at hi; cases hi
  constructor
  · apply Nat.eq_of_testBit_eq; intro i
    simp only [Nat.testBit_and, Nat.testBit_or, testBit_keepMask, testBit_gainMask]
    cases hpi : p.testBit i
    · by_cases h9 : 9 ≤ i <;> by_cases h12 : i < 12 <;> simp [h9, h12]
    · obtain ⟨h9, h12⟩ := hb i hpi
      simp [h9, h12]
  · apply Nat.eq_of_testBit_eq; intro i
    simp only [Nat.testBit_and, Nat.testBit_or, testBit_keepMask, testBit_gainMask]
    cases hpi : p.testBit i
    · simp
    · obtain ⟨h9, h12⟩ := hb i hpi
      simp [h9, h12]

theorem gain_after_set (x g : Nat) (hg : g < 8) :
    (((x &&& 61951) ||| (g <<< 9)) >>> 9) &&& 7 = g := by
  apply Nat.eq_of_testBit_eq; intro i
  have e7 : (7 : Nat) = 2 ^ 3 - 1 := by norm_num
  rw [e7]
  simp only [Nat.testBit_and, Nat.testBit_or, Nat.testBit_shiftRight, Nat.testBit_shiftLeft,
    testBit_keepMask, Nat.testBit_two_pow_sub_one]
  by_cases h3 : i < 3
  · have h12 : 9 + i < 12 := by omega
    simp [h3, h12]
  · have : g.testBit i = false := by
      apply Nat.testBit_lt_two_pow
      calc g < 2 ^ 3 := hg
        _ ≤ 2 ^ i := Nat.pow_le_pow_right (by norm_num) (by omega)
    simp [h3, this]

theorem not16_gainMask : not16 3584 = 61951 := by decide

theorem toInt16_toUInt16 (v : Int) (h1 : -32768 ≤ v) (h2 : v ≤ 32767) :
    toInt16 (toUInt16 v % 65536 % 65536) = v := by
  unfold toInt16 toUInt16
  split <;> omega

/-! ## The two register primitives, unfolded -/

open ADS1xx5_7semi

theorem writeReg_ack (d : ADS1xx5_7semi) (reg value : Nat) (w : TwoWire)
    (h : w.ack w.log.length = 0) :
    writeReg d reg value w =
      (true,
       { TwoWire.setReg { w with pointer := reg % 256 } (reg % 256) (value % 65536) with
         txAddr := d.address % 256
         txBuf := []
         log := Event.transmit (d.address % 256) (writeBytes reg value) 0 :: w.log }) := by
  have hs := split16 (value % 65536) (Nat.mod_lt _ (by norm_num))
  simp only [writeReg, TwoWire.beginTransmission, TwoWire.write, TwoWire.endTransmission,
    TwoWire.deliver, List.nil_append, List.cons_append, hs, h, writeBytes, if_true, beq_self_eq_true]
  rcases Nat.lt_or_ge (reg % 256) 4 with h4 | h4
  · interval_cases (reg % 256) <;> simp [TwoWire.setReg]
  · obtain ⟨k, hk⟩ : ∃ k, reg % 256 = k + 4 := ⟨reg % 256 - 4, by omega⟩
    rw [hk]; simp [TwoWire.setReg]

theorem writeReg_nack (d : ADS1xx5_7semi) (reg value : Nat) (w : TwoWire)
    (h : w.ack w.log.length ≠ 0) :
    writeReg d reg value w =
      (false,
       { w with
         txAddr := d.address % 256
         txBuf := []
         log := Event.transmit (d.address % 256) (writeBytes reg value) (w.ack w.log.length)
                  :: w.log }) := by
  simp [writeReg, TwoWire.beginTransmission, TwoWire.write, TwoWire.endTransmission, h,
    writeBytes]

theorem getReg_congr (w w1 : TwoWire) (reg : Nat)
    (h0 : w1.conversion = w.conversion) (h1 : w1.config = w.config)
    (h2 : w1.loThresh = w.loThresh) (h3 : w1.hiThresh = w.hiThresh) :
    TwoWire.getReg w1 reg = TwoWire.getReg w reg := by
  unfold TwoWire.getReg
  split <;> simp [*]

theorem readReg_nack (d : ADS1xx5_7semi) (reg : Nat) (w : TwoWire)
    (h : w.ack w.log.length ≠ 0) :
    readReg d reg w =
      (0xFFFF,
       { w with
         txAddr := d.address % 256
         txBuf := []
         log := Event.transmit (d.address % 256) [reg % 256] (w.ack w.log.length) :: w.log }) := by
  simp [readReg, TwoWire.beginTransmission, TwoWire.write, TwoWire.endTransmission, h]

theorem readReg_short (d : ADS1xx5_7semi) (reg : Nat) (w : TwoWire)
    (h : w.ack w.log.length = 0) (h2 : w.avail (w.log.length + 1) < 2) :
    (readReg d reg w).1 = 0xFFFF ∧
    (readReg d reg w).2.log =
      Event.request (d.address % 256) 2 (w.avail (w.log.length + 1))
        :: Event.transmit (d.address % 256) [reg % 256] 0 :: w.log ∧
    (readReg d reg w).2.conversion = w.conversion ∧
    (readReg d reg w).2.config = w.config ∧
    (readReg d reg w).2.loThresh = w.loThresh ∧
    (readReg d reg w).2.hiThresh = w.hiThresh := by
  have hk : min (w.avail (w.log.length + 1)) 2 = w.avail (w.log.length + 1) := by omega
  have hne : ¬ (w.avail (w.log.length + 1) = 2) := by omega
  simp [readReg, TwoWire.beginTransmission, TwoWire.write, TwoWire.endTransmission, h,
    TwoWire.deliver, TwoWire.requestFrom, hk, hne]

theorem readReg_ok (d : ADS1xx5_7semi) (reg : Nat) (w : TwoWire)
    (h : w.ack w.log.length = 0) (h2 : 2 ≤ w.avail (w.log.length + 1)) :
    readReg d reg w =
      (w.reply (w.log.length + 1) (reg % 256) (TwoWire.getReg w (reg % 256)) % 65536,
       { w with
         pointer := reg % 256
         txAddr := d.address % 256
         txBuf := []
         rxBuf := []
         log := Event.request (d.address % 256) 2 2
                  :: Event.transmit (d.address % 256) [reg % 256] 0 :: w.log }) := by
  have hk : min (w.avail (w.log.length + 1)) 2 = 2 := by omega
  simp [readReg, TwoWire.beginTransmission, TwoWire.write, TwoWire.endTransmission, h,
    TwoWire.deliver, TwoWire.requestFrom, hk, TwoWire.read]
  rw [getReg_congr _ w _ rfl rfl rfl rfl]
  simpa using join16 (w.reply (w.log.length + 1) (reg % 256) (TwoWire.getReg w (reg % 256)))

/-! ## The primitives on a transparent transport -/

theorem Transparent.of_env {w w1 : TwoWire} (ht : Transparent w)
    (h1 : w1.ack = w.ack) (h2 : w1.avail = w.avail) (h3 : w1.reply = w.reply) :
    Transparent w1 := by
  unfold Transparent at *
  rw [h1, h2, h3]; exact ht

theorem simBus_transparent (c f l h : Nat) : Transparent (simBus c f l h) :=
  ⟨fun _ => rfl, fun _ => Nat.le_refl 2, fun _ _ _ => rfl⟩

theorem readReg_transparent (d : ADS1xx5_7semi) (reg : Nat) (w : TwoWire) (ht : Transparent w) :
    readReg d reg w =
      (TwoWire.getReg w (reg % 256) % 65536,
       { w with
         pointer := reg % 256
         txAddr := d.address % 256
         txBuf := []
         rxBuf := []
         log := Event.request (d.address % 256) 2 2
                  :: Event.transmit (d.address % 256) [reg % 256] 0 :: w.log }) := by
  rw [readReg_ok d reg w (ht.1 _) (ht.2.1 _), ht.2.2]

theorem writeReg_transparent (d : ADS1xx5_7semi) (reg value : Nat) (w : TwoWire)
    (ht : Transparent w) :
    writeReg d reg value w =
      (true,
       { TwoWire.setReg { w with pointer := reg % 256 } (reg % 256) (value % 65536) with
         txAddr := d.address % 256
         txBuf := []
         log := Event.transmit (d.address % 256) (writeBytes reg value) 0 :: w.log }) :=
  writeReg_ack d reg value w (ht.1 _)

theorem setRefV_transparent (d : ADS1xx5_7semi) (pga_bits : Nat) (w : TwoWire)
    (ht : Transparent w) :
    setRefV d pga_bits w =
      (true,
       { w with
         config := ((w.config % 65536 &&& 61951) ||| pga_bits % 65536) % 65536
         pointer := 1
         txAddr := d.address % 256
         txBuf := []
         rxBuf := []
         log := Event.transmit (d.address % 256)
                  (writeBytes 1 ((w.config % 65536 &&& 61951) ||| pga_bits % 65536)) 0
                  :: Event.request (d.address % 256) 2 2
                  :: Event.transmit (d.address % 256) [1] 0 :: w.log }) := by
  unfold setRefV
  simp only [readReg_transparent d _ w ht]
  rw [writeReg_ack]
  · simp [REG_CONFIG, TwoWire.setReg, TwoWire.getReg, not16_gainMask]
  · exact ht.1 _

theorem getRefV_transparent (d : ADS1xx5_7semi) (w : TwoWire) (ht : Transparent w) :
    getRefV d w =
      (refVOfPga ((w.config % 65536) >>> 9 &&& 0x07),
       { w with
         pointer := 1
         txAddr := d.address % 256
         txBuf := []
         rxBuf := []
         log := Event.request (d.address % 256) 2 2
                  :: Event.transmit (d.address % 256) [1] 0 :: w.log }) := by
  unfold getRefV
  simp only [readReg_transparent d _ w ht]
  simp [REG_CONFIG, TwoWire.getReg]

theorem gain_read_back (x g : Nat) (hg : g < 8) :
    ((((x % 65536 &&& 61951) ||| (g <<< 9) % 65536) % 65536) % 65536) >>> 9 &&& 7 = g := by
  have h1 : (g <<< 9) % 65536 = g <<< 9 := by
    rw [Nat.shiftLeft_eq]; omega
  have h2 : (x % 65536 &&& 61951) ||| (g <<< 9) < 65536 := by
    have : (x % 65536 &&& 61951) ||| (g <<< 9) < 2 ^ 16 := by
      apply Nat.or_lt_two_pow
      · exact Nat.and_lt_two_pow _ (by norm_num)
      · rw [Nat.shiftLeft_eq]; omega
    simpa using this
  rw [h1, Nat.mod_mod, Nat.mod_eq_of_lt h2]
  exact gain_after_set _ g hg

/-! ## Gain selection and threshold round trip -/

/-- C1: on a transparent bus, for every gain code g in 0..5 and every initial
configuration value, `setRefV(g << 9)` returns true and the following
`getRefV()` returns the g-th entry of the fixed mapping
6.144, 4.096, 2.048, 1.024, 0.512, 0.256. -/
theorem setRefV_then_getRefV (d : ADS1xx5_7semi) (w : TwoWire) (g : Nat)
    (ht : Transparent w) (hg : g ≤ 5) :
    (setRefV d (g <<< 9) w).1 = true ∧
    gainTable[g]? = some (getRefV d (setRefV d (g <<< 9) w).2).1 := by
  have hs := setRefV_transparent d (g <<< 9) w ht
  have ht1 : Transparent (setRefV d (g <<< 9) w).2 := by
    rw [hs]; exact ht.of_env rfl rfl rfl
  rw [getRefV_transparent d _ ht1]
  simp only [hs]
  rw [gain_read_back _ g (by omega)]
  refine ⟨trivial, ?_⟩
  interval_cases g <;> rfl

theorem setRefV_then_getRefV_witness :
    (setRefV ⟨0x48⟩ (3 <<< 9) (simBus 0 0x8583 0 0)).1 = true ∧
    gainTable[3]? =
      some (getRefV ⟨0x48⟩ (setRefV ⟨0x48⟩ (3 <<< 9) (simBus 0 0x8583 0 0)).2).1 :=
  setRefV_then_getRefV ⟨0x48⟩ (simBus 0 0x8583 0 0) 3 (simBus_transparent _ _ _ _) (by decide)

/-- C2: on a transparent bus, for every signed 16-bit value v (negative values,
-32768 and 32767 included), `getLowThreshold()` after `setLowThreshold(v)`
returns v and `getHighThreshold()` after `setHighThreshold(v)` returns v. -/
theorem threshold_round_trip (d : ADS1xx5_7semi) (w : TwoWire) (v : Int)
    (ht : Transparent w) (hlo : -32768 ≤ v) (hhi : v ≤ 32767) :
    (getLowThreshold d (setLowThreshold d v w)).1 = v ∧
    (getHighThreshold d (setHighThreshold d v w)).1 = v := by
  have e := toInt16_toUInt16 v hlo hhi
  constructor
  · simp [setLowThreshold, getLowThreshold, writeReg_ack, readReg_ok, ht.1, ht.2.1, ht.2.2,
      REG_LO_THRESH, TwoWire.setReg, TwoWire.getReg]
    simpa using e
  · simp [setHighThreshold, getHighThreshold, writeReg_ack, readReg_ok, ht.1, ht.2.1, ht.2.2,
      REG_HI_THRESH, TwoWire.setReg, TwoWire.getReg]
    simpa using e

theorem threshold_round_trip_witness :
    (getLowThreshold ⟨0x48⟩ (setLowThreshold ⟨0x48⟩ (-32768) (simBus 0 0x8583 0 0))).1 = -32768 ∧
    (getHighThreshold ⟨0x48⟩ (setHighThreshold ⟨0x48⟩ (-32768) (simBus 0 0x8583 0 0))).1
      = -32768 :=
  threshold_round_trip ⟨0x48⟩ (simBus 0 0x8583 0 0) (-32768) (simBus_transparent _ _ _ _)
    (by decide) (by decide)

/-! ## Conversions -/

theorem convConfig_eq (m cfg : Nat) (hm : m < 8) :
    convConfig ((m <<< 12) % 65536) cfg = 0x8183 + m * 4096 + (cfg / 512 % 8) * 512 := by
  unfold convConfig
  rw [and_gain_mask]
  have hk : cfg / 512 % 8 < 8 := Nat.mod_lt _ (by norm_num)
  generalize cfg / 512 % 8 = k at hk
  interval_cases m <;> interval_cases k <;> rfl

theorem convConfig_os (m k : Nat) (hm : m < 8) (hk : k < 8) :
    (0x8183 + m * 4096 + k * 512) &&& OS_SINGLE ≠ 0 := by
  interval_cases m <;> interval_cases k <;> decide

theorem convConfig_mux (m k : Nat) (hm : m < 8) (hk : k < 8) :
    ((0x8183 + m * 4096 + k * 512) >>> 12) &&& 7 = m := by
  interval_cases m <;> interval_cases k <;> rfl

theorem convConfig_pga (m k : Nat) (hm : m < 8) (hk : k < 8) :
    ((0x8183 + m * 4096 + k * 512) >>> 9) &&& 7 = k := by
  interval_cases m <;> interval_cases k <;> rfl

theorem pga_field_eq (x : Nat) : (x >>> 9) &&& 7 = x / 512 % 8 := by
  have e7 : (7 : Nat) = 2 ^ 3 - 1 := by norm_num
  rw [e7, Nat.and_pow_two_sub_one_eq_mod, Nat.shiftRight_eq_div_pow]

theorem convConfig_bit14 (m k : Nat) (hm : m < 4) (hk : k < 8) :
    (0x8183 + m * 4096 + k * 512) &&& 0x4000 = 0 := by
  interval_cases m <;> interval_cases k <;> rfl

theorem readRawCH_unfold (d : ADS1xx5_7semi) (fuel c : Nat) (w : TwoWire) (hc : c ≤ 3) :
    readRawCH d fuel c w =
      (let r1 := readReg d REG_CONFIG w
       let r2 := writeReg d REG_CONFIG (convConfig (((0x4 + c) <<< 12) % 65536) r1.1) r1.2
       let r3 := waitReady d fuel r2.2
       if r3.1 = true then
         (some (toInt16 (readReg d REG_CONVERSION r3.2).1), (readReg d REG_CONVERSION r3.2).2)
       else (none, r3.2)) := by
  have h : ¬ c > 3 := by omega
  simp only [readRawCH, h, if_false, convConfig]

theorem readDiff_unfold (d : ADS1xx5_7semi) (fuel m : Nat) (w : TwoWire) (hm : m ≤ 3) :
    readDiff d fuel m w =
      (let r1 := readReg d REG_CONFIG w
       let r2 := writeReg d REG_CONFIG (convConfig (((m &&& 0x07) <<< 12) % 65536) r1.1) r1.2
       let r3 := waitReady d fuel r2.2
       if r3.1 = true then
         (some (round32 ((toInt16 (readReg d REG_CONVERSION r3.2).1 : ℚ)
            * round32 (round32 (getRefV d (readReg d REG_CONVERSION r3.2).2).1 / 32768))),
          (getRefV d (readReg d REG_CONVERSION r3.2).2).2)
       else (none, r3.2)) := by
  have h : ¬ m > 3 := by omega
  simp only [readDiff, h, if_false, convConfig]

theorem writesOf_readReg (d : ADS1xx5_7semi) (reg : Nat) (w : TwoWire) :
    writesOf (readReg d reg w).2.log = writesOf w.log := by
  by_cases h : w.ack w.log.length = 0
  · by_cases h2 : w.avail (w.log.length + 1) < 2
    · rw [(readReg_short d reg w h h2).2.1]
      simp [writesOf, Event.regWrite]
    · rw [readReg_ok d reg w h (by omega)]
      simp [writesOf, Event.regWrite]
  · rw [readReg_nack d reg w h]
    simp [writesOf, Event.regWrite]

theorem writesOf_writeReg (d : ADS1xx5_7semi) (reg value : Nat) (w : TwoWire) :
    writesOf (writeReg d reg value w).2.log = (reg % 256, value % 65536) :: writesOf w.log := by
  have hs := split16 (value % 65536) (Nat.mod_lt _ (by norm_num))
  by_cases h : w.ack w.log.length = 0
  · rw [writeReg_ack d reg value w h]
    simp [writesOf, Event.regWrite, writeBytes, hs]
  · rw [writeReg_nack d reg value w h]
    simp [writesOf, Event.regWrite, writeBytes, hs]

theorem waitReady_succ (d : ADS1xx5_7semi) (fuel : Nat) (w : TwoWire) :
    waitReady d (fuel + 1) w =
      if (readReg d REG_CONFIG w).1 &&& OS_SINGLE = 0 then
        waitReady d fuel (readReg d REG_CONFIG w).2
      else (true, (readReg d REG_CONFIG w).2) := rfl

theorem writesOf_waitReady (d : ADS1xx5_7semi) (fuel : Nat) (w : TwoWire) :
    writesOf (waitReady d fuel w).2.log = writesOf w.log := by
  induction fuel generalizing w with
  | zero => rfl
  | succ n ih =>
    rw [waitReady_succ]
    split
    · rw [ih]; exact writesOf_readReg d REG_CONFIG w
    · exact writesOf_readReg d REG_CONFIG w

theorem readReg_config_tr (d : ADS1xx5_7semi) (w : TwoWire) (ht : Transparent w) :
    readReg d REG_CONFIG w =
      (w.config % 65536,
       { w with
         pointer := 1
         txAddr := d.address % 256
         txBuf := []
         rxBuf := []
         log := Event.request (d.address % 256) 2 2
                  :: Event.transmit (d.address % 256) [1] 0 :: w.log }) := by
  rw [readReg_transparent d _ w ht]; rfl

theorem readReg_conversion_tr (d : ADS1xx5_7semi) (w : TwoWire) (ht : Transparent w) :
    readReg d REG_CONVERSION w =
      (w.conversion % 65536,
       { w with
         pointer := 0
         txAddr := d.address % 256
         txBuf := []
         rxBuf := []
         log := Event.request (d.address % 256) 2 2
                  :: Event.transmit (d.address % 256) [0] 0 :: w.log }) := by
  rw [readReg_transparent d _ w ht]; rfl

theorem writeReg_config_tr (d : ADS1xx5_7semi) (v : Nat) (w : TwoWire) (ht : Transparent w)
    (hv : v < 65536) :
    writeReg d REG_CONFIG v w =
      (true,
       { w with
         config := v
         pointer := 1
         txAddr := d.address % 256
         txBuf := []
         log := Event.transmit (d.address % 256) (writeBytes 1 v) 0 :: w.log }) := by
  rw [writeReg_transparent d _ _ w ht]
  simp [REG_CONFIG, TwoWire.setReg, Nat.mod_eq_of_lt hv]

theorem waitReady_tr (d : ADS1xx5_7semi) (fuel : Nat) (w : TwoWire) (ht : Transparent w)
    (hos : w.config % 65536 &&& OS_SINGLE ≠ 0) :
    waitReady d (fuel + 1) w = (true, (readReg d REG_CONFIG w).2) := by
  rw [waitReady_succ, readReg_config_tr d w ht]
  simp [hos]

/-- The configuration word a conversion leaves in the device on a transparent
transport, for multiplexer code `m` and previous configuration `cfg`. -/
theorem convWord_props (m cfg : Nat) (hm : m < 8) :
    0x8183 + m * 4096 + (cfg / 512 % 8) * 512 < 65536 ∧
    (0x8183 + m * 4096 + (cfg / 512 % 8) * 512) % 65536 &&& OS_SINGLE ≠ 0 := by
  have hk8 : cfg / 512 % 8 < 8 := Nat.mod_lt _ (by norm_num)
  have hlt : 0x8183 + m * 4096 + (cfg / 512 % 8) * 512 < 65536 := by omega
  exact ⟨hlt, by rw [Nat.mod_eq_of_lt hlt]; exact convConfig_os m _ hm hk8⟩

theorem readRawCH_transparent (d : ADS1xx5_7semi) (fuel c : Nat) (w : TwoWire)
    (ht : Transparent w) (hc : c ≤ 3) :
    readRawCH d (fuel + 1) c w =
      (some (toInt16 w.conversion),
       { w with
         config := 0x8183 + (4 + c) * 4096 + (w.config / 512 % 8) * 512
         pointer := 0
         txAddr := d.address % 256
         txBuf := []
         rxBuf := []
         log := Event.request (d.address % 256) 2 2
           :: Event.transmit (d.address % 256) [0] 0
           :: Event.request (d.address % 256) 2 2
           :: Event.transmit (d.address % 256) [1] 0
           :: Event.transmit (d.address % 256)
                (writeBytes 1 (0x8183 + (4 + c) * 4096 + (w.config / 512 % 8) * 512)) 0
           :: Event.request (d.address % 256) 2 2
           :: Event.transmit (d.address % 256) [1] 0 :: w.log }) := by
  have hk : w.config % 65536 / 512 % 8 = w.config / 512 % 8 := by omega
  obtain ⟨hlt, hos⟩ := convWord_props (4 + c) w.config (by omega)
  rw [readRawCH_unfold _ _ _ _ hc, readReg_config_tr d w ht]
  dsimp only
  rw [convConfig_eq (4 + c) _ (by omega), hk, writeReg_config_tr]
  rotate_left
  · exact ht.of_env rfl rfl rfl
  · exact hlt
  dsimp only
  rw [waitReady_tr, readReg_config_tr]
  rotate_left
  · exact ht.of_env rfl rfl rfl
  · exact ht.of_env rfl rfl rfl
  · exact hos
  dsimp only
  rw [readReg_conversion_tr]
  rotate_left
  · exact ht.of_env rfl rfl rfl
  simp [toInt16]

theorem convWord_pga (m cfg : Nat) (hm : m < 8) :
    ((0x8183 + m * 4096 + (cfg / 512 % 8) * 512) % 65536) >>> 9 &&& 0x07 = cfg / 512 % 8 := by
  have hk8 : cfg / 512 % 8 < 8 := Nat.mod_lt _ (by norm_num)
  rw [Nat.mod_eq_of_lt (convWord_props m cfg hm).1]
  exact convConfig_pga m _ hm hk8

theorem readCH_transparent (d : ADS1xx5_7semi) (fuel c : Nat) (w : TwoWire)
    (ht : Transparent w) (hc : c ≤ 3) :
    readCH d (fuel + 1) c w =
      (some (round32 ((toInt16 w.conversion : ℚ)
          * round32 (round32 (refVOfPga (w.config / 512 % 8)) / 32768))),
       { w with
         config := 0x8183 + (4 + c) * 4096 + (w.config / 512 % 8) * 512
         pointer := 1
         txAddr := d.address % 256
         txBuf := []
         rxBuf := []
         log := Event.request (d.address % 256) 2 2
           :: Event.transmit (d.address % 256) [1] 0
           :: Event.request (d.address % 256) 2 2
           :: Event.transmit (d.address % 256) [0] 0
           :: Event.request (d.address % 256) 2 2
           :: Event.transmit (d.address % 256) [1] 0
           :: Event.transmit (d.address % 256)
                (writeBytes 1 (0x8183 + (4 + c) * 4096 + (w.config / 512 % 8) * 512)) 0
           :: Event.request (d.address % 256) 2 2
           :: Event.transmit (d.address % 256) [1] 0 :: w.log }) := by
  unfold readCH
  rw [readRawCH_transparent d fuel c w ht hc]
  dsimp only
  rw [getRefV_transparent]
  rotate_left
  · exact ht.of_env rfl rfl rfl
  dsimp only
  rw [convWord_pga (4 + c) w.config (by omega)]

theorem readDiff_transparent (d : ADS1xx5_7semi) (fuel m : Nat) (w : TwoWire)
    (ht : Transparent w) (hm : m ≤ 3) :
    readDiff d (fuel + 1) m w =
      (some (round32 ((toInt16 w.conversion : ℚ)
          * round32 (round32 (refVOfPga (w.config / 512 % 8)) / 32768))),
       { w with
         config := 0x8183 + m * 4096 + (w.config / 512 % 8) * 512
         pointer := 1
         txAddr := d.address % 256
         txBuf := []
         rxBuf := []
         log := Event.request (d.address % 256) 2 2
           :: Event.transmit (d.address % 256) [1] 0
           :: Event.request (d.address % 256) 2 2
           :: Event.transmit (d.address % 256) [0] 0
           :: Event.request (d.address % 256) 2 2
           :: Event.transmit (d.address % 256) [1] 0
           :: Event.transmit (d.address % 256)
                (writeBytes 1 (0x8183 + m * 4096 + (w.config / 512 % 8) * 512)) 0
           :: Event.request (d.address % 256) 2 2
           :: Event.transmit (d.address % 256) [1] 0 :: w.log }) := by
  have hk : w.config % 65536 / 512 % 8 = w.config / 512 % 8 := by omega
  have hm7 : m &&& 0x07 = m := by interval_cases m <;> rfl
  obtain ⟨hlt, hos⟩ := convWord_props m w.config (by omega)
  rw [readDiff_unfold _ _ _ _ hm, readReg_config_tr d w ht]
  dsimp only
  rw [hm7, convConfig_eq m _ (by omega), hk, writeReg_config_tr]
  rotate_left
  · exact ht.of_env rfl rfl rfl
  · exact hlt
  dsimp only
  rw [waitReady_tr, readReg_config_tr]
  rotate_left
  · exact ht.of_env rfl rfl rfl
  · exact ht.of_env rfl rfl rfl
  · exact hos
  dsimp only
  rw [readReg_conversion_tr]
  rotate_left
  · exact ht.of_env rfl rfl rfl
  dsimp only
  rw [getRefV_transparent]
  rotate_left
  · exact ht.of_env rfl rfl rfl
  dsimp only
  rw [convWord_pga m w.config (by omega)]
  simp [toInt16]

theorem toInt16_of_toUInt16 (r : Int) (h1 : -32768 ≤ r) (h2 : r ≤ 32767) :
    toInt16 (toUInt16 r) = r := by
  unfold toInt16 toUInt16
  split <;> omega

theorem refVOfPga_pos (p : Nat) : 0 < refVOfPga p := by
  unfold refVOfPga
  split <;> norm_num

theorem gainTable_refVOfPga (p : Nat) : gainTable[min p 5]? = some (refVOfPga p) := by
  rcases Nat.lt_or_ge p 5 with h | h
  · interval_cases p <;> rfl
  · obtain ⟨k, rfl⟩ : ∃ k, p = k + 5 := ⟨p - 5, by omega⟩
    have : min (k + 5) 5 = 5 := by omega
    rw [this]; rfl

theorem getRefV_snd (d : ADS1xx5_7semi) (w : TwoWire) :
    (getRefV d w).2 = (readReg d REG_CONFIG w).2 := rfl

/-! ## Binary32 rounding -/

theorem roundHalfEven_of_lt (y : ℚ) (n : Int) (h : |y - n| < 1 / 2) : roundHalfEven y = n := by
  have h1 := Int.floor_le y
  have h2 := Int.lt_floor_add_one y
  rw [abs_lt] at h
  obtain ⟨ha, hb⟩ := h
  unfold roundHalfEven
  dsimp only
  split_ifs with c1 c2 c3
  · have b1 : ((⌊y⌋ - n : Int) : ℚ) < 1 := by push_cast; linarith
    have b2 : ((n - ⌊y⌋ : Int) : ℚ) < 1 := by push_cast; linarith
    have a1 : ⌊y⌋ - n < 1 := by exact_mod_cast b1
    have a2 : n - ⌊y⌋ < 1 := by exact_mod_cast b2
    omega
  · have b1 : ((⌊y⌋ + 1 - n : Int) : ℚ) < 1 := by push_cast; linarith
    have b2 : ((n - (⌊y⌋ + 1) : Int) : ℚ) < 1 := by push_cast; linarith
    have a1 : ⌊y⌋ + 1 - n < 1 := by exact_mod_cast b1
    have a2 : n - (⌊y⌋ + 1) < 1 := by exact_mod_cast b2
    omega
  · exfalso
    have e : y - ⌊y⌋ = 1 / 2 := le_antisymm (not_lt.mp c2) (not_lt.mp c1)
    have b1 : ((n - ⌊y⌋ : Int) : ℚ) < 1 := by push_cast; linarith
    have b2 : (0 : ℚ) < ((n - ⌊y⌋ : Int) : ℚ) := by push_cast; linarith
    have a1 : n - ⌊y⌋ < 1 := by exact_mod_cast b1
    have a2 : 0 < n - ⌊y⌋ := by exact_mod_cast b2
    omega
  · exfalso
    have e : y - ⌊y⌋ = 1 / 2 := le_antisymm (not_lt.mp c2) (not_lt.mp c1)
    have b1 : ((n - ⌊y⌋ : Int) : ℚ) < 1 := by push_cast; linarith
    have b2 : (0 : ℚ) < ((n - ⌊y⌋ : Int) : ℚ) := by push_cast; linarith
    have a1 : n - ⌊y⌋ < 1 := by exact_mod_cast b1
    have a2 : 0 < n - ⌊y⌋ := by exact_mod_cast b2
    omega

theorem roundHalfEven_err (y : ℚ) : |(roundHalfEven y : ℚ) - y| ≤ 1 / 2 := by
  have h1 := Int.floor_le y
  have h2 := Int.lt_floor_add_one y
  unfold roundHalfEven
  dsimp only
  rw [abs_le]
  split_ifs with c1 c2 c3
  · constructor <;> linarith
  · push_cast; constructor <;> linarith
  · have e : y - ⌊y⌋ = 1 / 2 := le_antisymm (not_lt.mp c2) (not_lt.mp c1)
    constructor <;> linarith
  · have e : y - ⌊y⌋ = 1 / 2 := le_antisymm (not_lt.mp c2) (not_lt.mp c1)
    push_cast; constructor <;> linarith

theorem log2_of_scaled (x : ℚ) (m : Nat) (h1 : (2 : ℚ) ^ 23 ≤ |x| * 2 ^ m)
    (h2 : |x| * 2 ^ m < 2 ^ 24) : Int.log 2 |x| = 23 - (m : Int) := by
  have hx : 0 < |x| := by
    by_contra h
    have h0 : |x| = 0 := le_antisymm (not_lt.mp h) (abs_nonneg x)
    rw [h0] at h1; norm_num at h1
  have e1 : ((2 : ℕ) : ℚ) ^ (23 - (m : Int)) ≤ |x| := by
    rw [zpow_sub₀ (by norm_num), zpow_natCast, div_le_iff₀ (by positivity)]
    exact_mod_cast h1
  have e2 : |x| < ((2 : ℕ) : ℚ) ^ (24 - (m : Int)) := by
    rw [zpow_sub₀ (by norm_num), zpow_natCast, lt_div_iff₀ (by positivity)]
    exact_mod_cast h2
  have l1 := (Int.zpow_le_iff_le_log (by norm_num : 1 < 2) hx).mp e1
  have l2 := (Int.lt_zpow_iff_log_lt (by norm_num : 1 < 2) hx).mp e2
  omega

theorem round32_scaled (x : ℚ) (m : Nat) (hm : m ≤ 149) (h1 : (2 : ℚ) ^ 23 ≤ |x| * 2 ^ m)
    (h2 : |x| * 2 ^ m < 2 ^ 24) :
    round32 x = (roundHalfEven (x * 2 ^ m) : ℚ) / 2 ^ m := by
  have hx : x ≠ 0 := by
    rintro rfl
    norm_num at h1
  have he : max (Int.log 2 |x| - 23) (-149) = -(m : Int) := by
    rw [log2_of_scaled x m h1 h2]; omega
  unfold round32
  rw [if_neg hx]
  dsimp only
  rw [he, zpow_neg, zpow_natCast, div_inv_eq_mul, ← div_eq_mul_inv]

theorem round32_zero : round32 0 = 0 := by simp [round32]

theorem round32_err_scaled (x : ℚ) (m : Nat) (hm : m ≤ 149)
    (h1 : (2 : ℚ) ^ 23 ≤ |x| * 2 ^ m) (h2 : |x| * 2 ^ m < 2 ^ 24) :
    |round32 x - x| ≤ |x| / 2 ^ 24 := by
  have hp : (0 : ℚ) < 2 ^ m := by positivity
  rw [round32_scaled x m hm h1 h2]
  have h := roundHalfEven_err (x * 2 ^ m)
  have e : (roundHalfEven (x * 2 ^ m) : ℚ) / 2 ^ m - x
      = ((roundHalfEven (x * 2 ^ m) : ℚ) - x * 2 ^ m) / 2 ^ m := by
    field_simp
    ring
  rw [e, abs_div, abs_of_pos hp, div_le_div_iff₀ hp (by positivity)]
  calc |(roundHalfEven (x * 2 ^ m) : ℚ) - x * 2 ^ m| * 2 ^ 24
      ≤ 1 / 2 * 2 ^ 24 := by gcongr
    _ = 2 ^ 23 := by norm_num
    _ ≤ |x| * 2 ^ m := h1

/-- Every value of magnitude in [2^-17, 2^24) has a scale in the normal range. -/
theorem exists_scale (x : ℚ) (h1 : 1 ≤ |x| * 2 ^ 17) (h2 : |x| < 2 ^ 24) :
    ∃ m : Nat, m ≤ 149 ∧ (2 : ℚ) ^ 23 ≤ |x| * 2 ^ m ∧ |x| * 2 ^ m < 2 ^ 24 := by
  have hx : 0 < |x| := by
    by_contra h
    have h0 : |x| = 0 := le_antisymm (not_lt.mp h) (abs_nonneg x)
    rw [h0] at h1; norm_num at h1
  have l1 := Int.zpow_log_le_self (by norm_num : 1 < 2) hx
  have l2 := Int.lt_zpow_succ_log_self (by norm_num : 1 < 2) |x|
  have hup : Int.log 2 |x| < 24 := by
    apply (Int.lt_zpow_iff_log_lt (by norm_num : 1 < 2) hx).mp
    exact_mod_cast h2
  have hlo : -17 ≤ Int.log 2 |x| := by
    apply (Int.zpow_le_iff_le_log (by norm_num : 1 < 2) hx).mp
    rw [zpow_neg, inv_eq_one_div, div_le_iff₀ (by positivity)]
    exact_mod_cast h1
  obtain ⟨m, hm⟩ : ∃ m : Nat, (m : Int) = 23 - Int.log 2 |x| := ⟨(23 - Int.log 2 |x|).toNat, by omega⟩
  have hL : Int.log 2 |x| = 23 - (m : Int) := by omega
  rw [hL] at l1 l2
  refine ⟨m, by omega, ?_, ?_⟩
  · rw [zpow_sub₀ (by norm_num), zpow_natCast, div_le_iff₀ (by positivity)] at l1
    exact_mod_cast l1
  · have e : (23 : Int) - m + 1 = 24 - m := by ring
    rw [e, zpow_sub₀ (by norm_num), zpow_natCast, lt_div_iff₀ (by positivity)] at l2
    exact_mod_cast l2

theorem round32_err (x : ℚ) (h1 : 1 ≤ |x| * 2 ^ 17) (h2 : |x| < 2 ^ 24) :
    |round32 x - x| ≤ |x| / 2 ^ 24 := by
  obtain ⟨m, hm, a1, a2⟩ := exists_scale x h1 h2
  exact round32_err_scaled x m hm a1 a2

theorem round32_neg_of_neg (x : ℚ) (hx : x < 0) (h1 : 1 ≤ |x| * 2 ^ 17) (h2 : |x| < 2 ^ 24) :
    round32 x < 0 := by
  have h := round32_err x h1 h2
  rw [abs_of_neg hx] at h
  have h3 := (abs_le.mp h).2
  have : -x / 2 ^ 24 < -x := by
    rw [div_lt_iff₀ (by positivity)]
    nlinarith
  linarith

/-! ## The binary32 values of the full-scale constants -/

theorem round32_refV (p : Nat) : round32 (refVOfPga p) = refV32 p := by
  unfold refVOfPga refV32
  split
  · rw [round32_scaled _ 21 (by norm_num) (by norm_num [abs_of_pos])
      (by norm_num [abs_of_pos]), roundHalfEven_of_lt _ 12884902 (by norm_num [abs_lt])]
    norm_num
  · rw [round32_scaled _ 21 (by norm_num) (by norm_num [abs_of_pos])
      (by norm_num [abs_of_pos]), roundHalfEven_of_lt _ 8589935 (by norm_num [abs_lt])]
    norm_num
  · rw [round32_scaled _ 22 (by norm_num) (by norm_num [abs_of_pos])
      (by norm_num [abs_of_pos]), roundHalfEven_of_lt _ 8589935 (by norm_num [abs_lt])]
    norm_num
  · rw [round32_scaled _ 23 (by norm_num) (by norm_num [abs_of_pos])
      (by norm_num [abs_of_pos]), roundHalfEven_of_lt _ 8589935 (by norm_num [abs_lt])]
    norm_num
  · rw [round32_scaled _ 24 (by norm_num) (by norm_num [abs_of_pos])
      (by norm_num [abs_of_pos]), roundHalfEven_of_lt _ 8589935 (by norm_num [abs_lt])]
    norm_num
  · rw [round32_scaled _ 25 (by norm_num) (by norm_num [abs_of_pos])
      (by norm_num [abs_of_pos]), roundHalfEven_of_lt _ 8589935 (by norm_num [abs_lt])]
    norm_num

theorem round32_lsb (p : Nat) : round32 (refV32 p / 32768) = refV32 p / 32768 := by
  unfold refV32
  split
  · rw [round32_scaled _ 36 (by norm_num) (by norm_num [abs_of_pos])
      (by norm_num [abs_of_pos]), roundHalfEven_of_lt _ 12884902 (by norm_num [abs_lt])]
    norm_num
  · rw [round32_scaled _ 36 (by norm_num) (by norm_num [abs_of_pos])
      (by norm_num [abs_of_pos]), roundHalfEven_of_lt _ 8589935 (by norm_num [abs_lt])]
    norm_num
  · rw [round32_scaled _ 37 (by norm_num) (by norm_num [abs_of_pos])
      (by norm_num [abs_of_pos]), roundHalfEven_of_lt _ 8589935 (by norm_num [abs_lt])]
    norm_num
  · rw [round32_scaled _ 38 (by norm_num) (by norm_num [abs_of_pos])
      (by norm_num [abs_of_pos]), roundHalfEven_of_lt _ 8589935 (by norm_num [abs_lt])]
    norm_num
  · rw [round32_scaled _ 39 (by norm_num) (by norm_num [abs_of_pos])
      (by norm_num [abs_of_pos]), roundHalfEven_of_lt _ 8589935 (by norm_num [abs_lt])]
    norm_num
  · rw [round32_scaled _ 40 (by norm_num) (by norm_num [abs_of_pos])
      (by norm_num [abs_of_pos]), roundHalfEven_of_lt _ 8589935 (by norm_num [abs_lt])]
    norm_num

theorem round32_full_negative (p : Nat) :
    round32 ((-32768 : ℚ) * (refV32 p / 32768)) = -refV32 p := by
  unfold refV32
  split
  · rw [round32_scaled _ 21 (by norm_num) (by norm_num [abs_of_neg])
      (by norm_num [abs_of_neg]), roundHalfEven_of_lt _ (-12884902) (by norm_num [abs_lt])]
    norm_num
  · rw [round32_scaled _ 21 (by norm_num) (by norm_num [abs_of_neg])
      (by norm_num [abs_of_neg]), roundHalfEven_of_lt _ (-8589935) (by norm_num [abs_lt])]
    norm_num
  · rw [round32_scaled _ 22 (by norm_num) (by norm_num [abs_of_neg])
      (by norm_num [abs_of_neg]), roundHalfEven_of_lt _ (-8589935) (by norm_num [abs_lt])]
    norm_num
  · rw [round32_scaled _ 23 (by norm_num) (by norm_num [abs_of_neg])
      (by norm_num [abs_of_neg]), roundHalfEven_of_lt _ (-8589935) (by norm_num [abs_lt])]
    norm_num
  · rw [round32_scaled _ 24 (by norm_num) (by norm_num [abs_of_neg])
      (by norm_num [abs_of_neg]), roundHalfEven_of_lt _ (-8589935) (by norm_num [abs_lt])]
    norm_num
  · rw [round32_scaled _ 25 (by norm_num) (by norm_num [abs_of_neg])
      (by norm_num [abs_of_neg]), roundHalfEven_of_lt _ (-8589935) (by norm_num [abs_lt])]
    norm_num

theorem refV32_bounds (p : Nat) : 1 / 4 ≤ refV32 p ∧ refV32 p < 8 := by
  unfold refV32
  split <;> norm_num

/-- The product of a non-zero 16-bit sample and the lsb lies in the normal range. -/
theorem sample_in_range (p : Nat) (r : Int) (hr0 : r ≠ 0) (hlo : -32768 ≤ r) (hhi : r ≤ 32767) :
    1 ≤ |(r : ℚ) * (refV32 p / 32768)| * 2 ^ 17 ∧ |(r : ℚ) * (refV32 p / 32768)| < 2 ^ 24 := by
  obtain ⟨b1, b2⟩ := refV32_bounds p
  have hF : 0 < refV32 p / 32768 := by positivity
  have e : |(r : ℚ) * (refV32 p / 32768)| = |(r : ℚ)| * (refV32 p / 32768) := by
    rw [abs_mul, abs_of_pos hF]
  have ha1 : (1 : ℚ) ≤ |(r : ℚ)| := by
    have : (1 : Int) ≤ |r| := Int.one_le_abs hr0
    exact_mod_cast this
  have ha2 : |(r : ℚ)| ≤ 32768 := by
    have : |r| ≤ (32768 : Int) := by rw [abs_le]; omega
    exact_mod_cast this
  rw [e]
  constructor
  · have : (1 : ℚ) * (1 / 4 / 32768) ≤ |(r : ℚ)| * (refV32 p / 32768) := by gcongr
    nlinarith
  · have : |(r : ℚ)| * (refV32 p / 32768) ≤ 32768 * (refV32 p / 32768) := by gcongr
    nlinarith

/-! ## Conversions on a device that reports completion after some polls -/

theorem gain_of_reply (x v : Nat) (h : x &&& 0x0E00 = v &&& 0x0E00) :
    x % 65536 / 512 % 8 = v / 512 % 8 := by
  have e : (0x0E00 : Nat) = 0x07 <<< 9 := by decide
  rw [e, and_gain_mask, and_gain_mask] at h
  omega

theorem writeReg_config_ack (d : ADS1xx5_7semi) (v : Nat) (s : TwoWire)
    (h : s.ack s.log.length = 0) (hv : v < 65536) :
    writeReg d REG_CONFIG v s =
      (true,
       { s with
         config := v
         pointer := 1
         txAddr := d.address % 256
         txBuf := []
         log := Event.transmit (d.address % 256) (writeBytes 1 v) 0 :: s.log }) := by
  rw [writeReg_ack d _ _ s h]
  simp [REG_CONFIG, TwoWire.setReg, Nat.mod_eq_of_lt hv]

theorem readReg_config_ok (d : ADS1xx5_7semi) (s : TwoWire)
    (h : s.ack s.log.length = 0) (h2 : 2 ≤ s.avail (s.log.length + 1)) :
    readReg d REG_CONFIG s =
      (s.reply (s.log.length + 1) REG_CONFIG s.config % 65536,
       { s with
         pointer := 1
         txAddr := d.address % 256
         txBuf := []
         rxBuf := []
         log := Event.request (d.address % 256) 2 2
                  :: Event.transmit (d.address % 256) [1] 0 :: s.log }) := by
  rw [readReg_ok d _ s h h2]; rfl

theorem readReg_conversion_ok (d : ADS1xx5_7semi) (s : TwoWire)
    (h : s.ack s.log.length = 0) (h2 : 2 ≤ s.avail (s.log.length + 1)) :
    readReg d REG_CONVERSION s =
      (s.reply (s.log.length + 1) REG_CONVERSION s.conversion % 65536,
       { s with
         pointer := 0
         txAddr := d.address % 256
         txBuf := []
         rxBuf := []
         log := Event.request (d.address % 256) 2 2
                  :: Event.transmit (d.address % 256) [0] 0 :: s.log }) := by
  rw [readReg_ok d _ s h h2]; rfl

/-- The polling loop on a device that is busy for `k` polls: it needs more than
`k` polls of fuel and then ends with the registers as they were. -/
theorem waitReady_completes (d : ADS1xx5_7semi) (k : Nat) :
    ∀ (fuel : Nat) (s : TwoWire), k < fuel →
      (∀ t, s.ack t = 0) → (∀ t, 2 ≤ s.avail t) →
      (∀ j, j < k →
        (s.reply (s.log.length + 1 + 2 * j) REG_CONFIG s.config % 65536) &&& OS_SINGLE = 0) →
      (s.reply (s.log.length + 1 + 2 * k) REG_CONFIG s.config % 65536) &&& OS_SINGLE ≠ 0 →
      ∃ log1, waitReady d fuel s =
        (true, { s with
                 pointer := 1
                 txAddr := d.address % 256
                 txBuf := []
                 rxBuf := []
                 log := log1 }) := by
  induction k with
  | zero =>
    intro fuel s hf hack hav _ hdone
    obtain ⟨f, rfl⟩ : ∃ f, fuel = f + 1 := ⟨fuel - 1, by omega⟩
    rw [waitReady_succ, readReg_config_ok d s (hack _) (hav _)]
    dsimp only
    rw [if_neg (by simpa using hdone)]
    exact ⟨_, rfl⟩
  | succ k ih =>
    intro fuel s hf hack hav hbusy hdone
    obtain ⟨f, rfl⟩ : ∃ f, fuel = f + 1 := ⟨fuel - 1, by omega⟩
    rw [waitReady_succ, readReg_config_ok d s (hack _) (hav _)]
    dsimp only
    rw [if_pos (by simpa using hbusy 0 (by omega))]
    obtain ⟨log1, h1⟩ := ih f
      { s with
        pointer := 1
        txAddr := d.address % 256
        txBuf := []
        rxBuf := []
        log := Event.request (d.address % 256) 2 2
                 :: Event.transmit (d.address % 256) [1] 0 :: s.log }
      (by omega) hack hav
      (by
        intro j hj
        have e : (Event.request (d.address % 256) 2 2
            :: Event.transmit (d.address % 256) [1] 0 :: s.log).length + 1 + 2 * j
            = s.log.length + 1 + 2 * (j + 1) := by simp; omega
        show (s.reply _ REG_CONFIG s.config % 65536) &&& OS_SINGLE = 0
        rw [e]; exact hbusy (j + 1) (by omega))
      (by
        have e : (Event.request (d.address % 256) 2 2
            :: Event.transmit (d.address % 256) [1] 0 :: s.log).length + 1 + 2 * k
            = s.log.length + 1 + 2 * (k + 1) := by simp; omega
        show (s.reply _ REG_CONFIG s.config % 65536) &&& OS_SINGLE ≠ 0
        rw [e]; exact hdone)
    exact ⟨log1, h1⟩

/-- The part `readRawCH` and `readDiff` share, on a device that reports
completion after `k` polls: read, write and polling loop. -/
theorem conversion_started (d : ADS1xx5_7semi) (w : TwoWire) (k fuel m : Nat)
    (hr : ReportsComplete w k) (hf : k < fuel) (hm : m < 8) :
    ∃ log1,
      waitReady d fuel
        (writeReg d REG_CONFIG (convConfig ((m <<< 12) % 65536) (readReg d REG_CONFIG w).1)
          (readReg d REG_CONFIG w).2).2 =
      (true, { w with
               config := 0x8183 + m * 4096 + (w.config / 512 % 8) * 512
               pointer := 1
               txAddr := d.address % 256
               txBuf := []
               rxBuf := []
               log := log1 }) := by
  obtain ⟨hack, hav, _, hgain, hbusy, hdone⟩ := hr
  obtain ⟨hlt, hos⟩ := convWord_props m w.config hm
  have hos1 : (0x8183 + m * 4096 + (w.config / 512 % 8) * 512) &&& OS_SINGLE ≠ 0 := by
    rw [Nat.mod_eq_of_lt hlt] at hos; exact hos
  rw [readReg_config_ok d w (hack _) (hav _)]
  dsimp only
  rw [convConfig_eq m _ hm, gain_of_reply _ _ (hgain _ _), writeReg_config_ack]
  rotate_left
  · exact hack _
  · exact hlt
  dsimp only
  obtain ⟨log1, h1⟩ := waitReady_completes d k fuel
    { w with
      config := 0x8183 + m * 4096 + (w.config / 512 % 8) * 512
      pointer := 1
      txAddr := d.address % 256
      txBuf := []
      rxBuf := []
      log := Event.transmit (d.address % 256)
               (writeBytes 1 (0x8183 + m * 4096 + (w.config / 512 % 8) * 512)) 0
             :: Event.request (d.address % 256) 2 2
             :: Event.transmit (d.address % 256) [1] 0 :: w.log }
    hf hack hav
    (by
      intro j hj
      have e : (Event.transmit (d.address % 256)
               (writeBytes 1 (0x8183 + m * 4096 + (w.config / 512 % 8) * 512)) 0
             :: Event.request (d.address % 256) 2 2
             :: Event.transmit (d.address % 256) [1] 0 :: w.log).length + 1 + 2 * j
          = w.log.length + 4 + 2 * j := by simp
      show (w.reply _ REG_CONFIG _ % 65536) &&& OS_SINGLE = 0
      rw [e]; exact hbusy j _ hj)
    (by
      have e : (Event.transmit (d.address % 256)
               (writeBytes 1 (0x8183 + m * 4096 + (w.config / 512 % 8) * 512)) 0
             :: Event.request (d.address % 256) 2 2
             :: Event.transmit (d.address % 256) [1] 0 :: w.log).length + 1 + 2 * k
          = w.log.length + 4 + 2 * k := by simp
      show (w.reply _ REG_CONFIG _ % 65536) &&& OS_SINGLE ≠ 0
      rw [e]; exact hdone _ hlt hos1)
  exact ⟨log1, h1⟩

theorem convWord_gain (m k : Nat) (hk : k < 8) :
    (0x8183 + m * 4096 + k * 512) / 512 % 8 = k := by omega

theorem toInt16_mod (x : Nat) : toInt16 (x % 65536) = toInt16 x := by
  unfold toInt16
  rw [Nat.mod_mod]

theorem getRefV_ok (d : ADS1xx5_7semi) (s : TwoWire)
    (hack : ∀ t, s.ack t = 0) (hav : ∀ t, 2 ≤ s.avail t)
    (hgain : ∀ t v, s.reply t REG_CONFIG v &&& 0x0E00 = v &&& 0x0E00) :
    getRefV d s =
      (refVOfPga (s.config / 512 % 8),
       { s with
         pointer := 1
         txAddr := d.address % 256
         txBuf := []
         rxBuf := []
         log := Event.request (d.address % 256) 2 2
                  :: Event.transmit (d.address % 256) [1] 0 :: s.log }) := by
  unfold getRefV
  simp only [readReg_config_ok d s (hack _) (hav _)]
  rw [pga_field_eq, gain_of_reply _ _ (hgain _ _)]

theorem readRawCH_completes (d : ADS1xx5_7semi) (w : TwoWire) (k fuel c : Nat)
    (hr : ReportsComplete w k) (hf : k < fuel) (hc : c ≤ 3) :
    ∃ log1, readRawCH d fuel c w =
      (some (toInt16 w.conversion),
       { w with
         config := 0x8183 + (4 + c) * 4096 + (w.config / 512 % 8) * 512
         pointer := 0
         txAddr := d.address % 256
         txBuf := []
         rxBuf := []
         log := log1 }) := by
  obtain ⟨log1, h1⟩ := conversion_started d w k fuel (4 + c) hr hf (by omega)
  obtain ⟨hack, hav, hconv, _, _, _⟩ := hr
  rw [readRawCH_unfold _ _ _ _ hc]
  dsimp only
  rw [h1]
  dsimp only
  rw [if_pos rfl, readReg_conversion_ok]
  rotate_left
  · exact hack _
  · exact hav _
  dsimp only
  rw [hconv, toInt16_mod]
  exact ⟨_, rfl⟩

theorem readCH_completes (d : ADS1xx5_7semi) (w : TwoWire) (k fuel c : Nat)
    (hr : ReportsComplete w k) (hf : k < fuel) (hc : c ≤ 3) :
    (readCH d fuel c w).1 =
      some (round32 ((toInt16 w.conversion : ℚ) * (refV32 (w.config / 512 % 8) / 32768))) := by
  obtain ⟨log1, h1⟩ := readRawCH_completes d w k fuel c hr hf hc
  obtain ⟨hack, hav, _, hgain, _, _⟩ := hr
  have hk8 : w.config / 512 % 8 < 8 := Nat.mod_lt _ (by norm_num)
  unfold readCH
  rw [h1]
  dsimp only
  rw [getRefV_ok]
  rotate_left
  · exact hack
  · exact hav
  · exact hgain
  dsimp only
  rw [convWord_gain _ _ hk8, round32_refV, round32_lsb]

theorem readDiff_completes (d : ADS1xx5_7semi) (w : TwoWire) (k fuel m : Nat)
    (hr : ReportsComplete w k) (hf : k < fuel) (hm : m ≤ 3) :
    (readDiff d fuel m w).1 =
      some (round32 ((toInt16 w.conversion : ℚ) * (refV32 (w.config / 512 % 8) / 32768))) := by
  have hm7 : m &&& 0x07 = m := by interval_cases m <;> rfl
  obtain ⟨log1, h1⟩ := conversion_started d w k fuel m hr hf (by omega)
  obtain ⟨hack, hav, hconv, hgain, _, _⟩ := hr
  have hk8 : w.config / 512 % 8 < 8 := Nat.mod_lt _ (by norm_num)
  rw [readDiff_unfold _ _ _ _ hm]
  dsimp only
  rw [hm7, h1]
  dsimp only
  rw [if_pos rfl, readReg_conversion_ok]
  rotate_left
  · exact hack _
  · exact hav _
  dsimp only
  rw [getRefV_ok]
  rotate_left
  · exact hack
  · exact hav
  · exact hgain
  dsimp only
  rw [hconv, toInt16_mod, convWord_gain _ _ hk8, round32_refV, round32_lsb]

theorem refV32_near (p : Nat) : |refV32 p - refVOfPga p| ≤ refVOfPga p / 2 ^ 24 := by
  unfold refV32 refVOfPga
  split <;> norm_num [abs_le]

theorem and_7FFF_os (v : Nat) : (v &&& 0x7FFF) % 65536 &&& OS_SINGLE = 0 := by
  have h1 : v &&& 0x7FFF < 2 ^ 15 := Nat.and_lt_two_pow _ (by norm_num)
  rw [Nat.mod_eq_of_lt (by omega)]
  apply Nat.eq_of_testBit_eq
  intro i
  have e : OS_SINGLE = 2 ^ 15 := by decide
  rw [e, Nat.testBit_and, Nat.testBit_two_pow, Nat.zero_testBit]
  by_cases hi : 15 = i
  · subst hi; simp [Nat.testBit_lt_two_pow h1]
  · simp [hi]

theorem slowBus_reportsComplete (k c f l h : Nat) : ReportsComplete (slowBus k c f l h) k := by
  refine ⟨fun _ => rfl, fun _ => Nat.le_refl 2, fun t v => ?_, fun t v => ?_,
    fun j v hj => ?_, fun v hv hos => ?_⟩
  · simp [slowBus, REG_CONVERSION]
  · show (if REG_CONFIG = 1 ∧ t < 4 + 2 * k then v &&& 0x7FFF else v) &&& 0x0E00 = v &&& 0x0E00
    split
    · rw [Nat.and_assoc]; rfl
    · rfl
  · have ht : (slowBus k c f l h).log.length + 4 + 2 * j < 4 + 2 * k := by
      show 0 + 4 + 2 * j < 4 + 2 * k
      omega
    show ((if REG_CONFIG = 1 ∧ (slowBus k c f l h).log.length + 4 + 2 * j < 4 + 2 * k
      then v &&& 0x7FFF else v) % 65536) &&& OS_SINGLE = 0
    rw [if_pos ⟨rfl, ht⟩]
    exact and_7FFF_os v
  · have ht : ¬ ((slowBus k c f l h).log.length + 4 + 2 * k < 4 + 2 * k) := by
      show ¬ (0 + 4 + 2 * k < 4 + 2 * k)
      omega
    show ((if REG_CONFIG = 1 ∧ (slowBus k c f l h).log.length + 4 + 2 * k < 4 + 2 * k
      then v &&& 0x7FFF else v) % 65536) &&& OS_SINGLE ≠ 0
    rw [if_neg (fun hh => ht hh.2), Nat.mod_eq_of_lt hv]
    exact hos

theorem Transparent.reportsComplete {w : TwoWire} (ht : Transparent w) :
    ReportsComplete w 0 := by
  refine ⟨ht.1, ht.2.1, fun t v => ht.2.2 _ _ _, fun t v => by rw [ht.2.2], ?_, ?_⟩
  · intro j v hj
    exact absurd hj (Nat.not_lt_zero j)
  · intro v hv hos
    rw [ht.2.2, Nat.mod_eq_of_lt hv]
    exact hos

/-! ## Scaling of the raw sample -/

/-- C3, the claim as stated fails: with 5 in the conversion register and gain
code 2 on a transparent bus, `readRawCH(0)` returns 5 and `getRefV()` selects
2.048, but `readCH(0)` returns the float 10737419 / 2^35, which is neither
5 * 2.048 / 32768 nor 5 * F / 32768 for the binary32 value F of 2.048. -/
theorem readCH_exact_scaling_fails :
    (readRawCH ⟨0x48⟩ 1 0 (simBus 5 0x0400 0 0)).1 = some 5 ∧
    (getRefV ⟨0x48⟩ (simBus 5 0x0400 0 0)).1 = 2.048 ∧
    (readCH ⟨0x48⟩ 1 0 (simBus 5 0x0400 0 0)).1 = some (10737419 / 2 ^ 35) ∧
    (readCH ⟨0x48⟩ 1 0 (simBus 5 0x0400 0 0)).1 ≠ some ((5 : ℚ) * 2.048 / 32768) ∧
    (readCH ⟨0x48⟩ 1 0 (simBus 5 0x0400 0 0)).1 ≠ some ((5 : ℚ) * round32 2.048 / 32768) := by
  have ht := simBus_transparent 5 0x0400 0 0
  have hF : round32 (2.048 : ℚ) = 8589935 / 2 ^ 22 := round32_refV 2
  have hv : (readCH ⟨0x48⟩ 1 0 (simBus 5 0x0400 0 0)).1 = some (10737419 / 2 ^ 35) := by
    rw [readCH_transparent ⟨0x48⟩ 0 0 _ ht (by decide)]
    have e1 : (simBus 5 0x0400 0 0).config / 512 % 8 = 2 := by decide
    have e2 : toInt16 (simBus 5 0x0400 0 0).conversion = 5 := by decide
    dsimp only
    rw [e1, e2, round32_refV, round32_lsb]
    have e3 : refV32 2 = 8589935 / 2 ^ 22 := rfl
    rw [e3, round32_scaled _ 35 (by norm_num) (by norm_num [abs_of_pos])
      (by norm_num [abs_of_pos]), roundHalfEven_of_lt _ 10737419 (by norm_num [abs_lt])]
    norm_num
  refine ⟨?_, ?_, hv, ?_, ?_⟩
  · rw [readRawCH_transparent ⟨0x48⟩ 0 0 _ ht (by decide)]
    rfl
  · rw [getRefV_transparent ⟨0x48⟩ _ ht]
    rfl
  · rw [hv]
    norm_num
  · rw [hv, hF]
    norm_num

/-- C3 as amended: on a device that reports the conversion complete after any
number k of busy polls (fuel above k), for every channel c in 0..3, every gain
field and every signed 16-bit raw value r held in the conversion register,
`readRawCH(c)` returns r and `readCH(c)` returns the binary32 product of r and
F / 32768, that is r * F / 32768 rounded once to binary32 (relative error at
most 2^-24), where F is the binary32 value of the full-scale constant the
current gain field selects (the one `getRefV()` reports, within 2^-24 of the
decimal); r = -32768 gives exactly -F, a negative r gives a negative voltage,
and `readDiff` scales its raw sample the same way. -/
theorem readCH_scaling_rounded (d : ADS1xx5_7semi) (w : TwoWire) (k fuel c : Nat) (r : Int)
    (hr : ReportsComplete w k) (hf : k < fuel) (hc : c ≤ 3)
    (hlo : -32768 ≤ r) (hhi : r ≤ 32767) (hconv : w.conversion = toUInt16 r) :
    ∃ fullScale : ℚ,
      gainTable[min ((w.config >>> 9) &&& 0x07) 5]? = some fullScale ∧
      (getRefV d w).1 = fullScale ∧
      |round32 fullScale - fullScale| ≤ fullScale / 2 ^ 24 ∧
      (readRawCH d fuel c w).1 = some r ∧
      (readCH d fuel c w).1 = some (round32 ((r : ℚ) * (round32 fullScale / 32768))) ∧
      (readDiff d fuel c w).1 = some (round32 ((r : ℚ) * (round32 fullScale / 32768))) ∧
      |round32 ((r : ℚ) * (round32 fullScale / 32768)) - (r : ℚ) * (round32 fullScale / 32768)|
        ≤ |(r : ℚ) * (round32 fullScale / 32768)| / 2 ^ 24 ∧
      (r = -32768 → (readCH d fuel c w).1 = some (-round32 fullScale)) ∧
      (r < 0 → ∃ v, (readCH d fuel c w).1 = some v ∧ v < 0) := by
  have hrc : toInt16 w.conversion = r := by rw [hconv]; exact toInt16_of_toUInt16 r hlo hhi
  have hch := readCH_completes d w k fuel c hr hf hc
  have hdf := readDiff_completes d w k fuel c hr hf hc
  obtain ⟨lg, hraw⟩ := readRawCH_completes d w k fuel c hr hf hc
  rw [hrc] at hch hdf hraw
  refine ⟨refVOfPga (w.config / 512 % 8), ?_, ?_, ?_, ?_, ?_, ?_, ?_, ?_, ?_⟩
  · rw [pga_field_eq]; exact gainTable_refVOfPga _
  · rw [getRefV_ok d w hr.1 hr.2.1 hr.2.2.2.1]
  · rw [round32_refV]; exact refV32_near _
  · rw [hraw]
  · rw [hch, round32_refV]
  · rw [hdf, round32_refV]
  · rw [round32_refV]
    by_cases h0 : r = 0
    · subst h0; simp [round32_zero]
    · obtain ⟨a1, a2⟩ := sample_in_range (w.config / 512 % 8) r h0 hlo hhi
      exact round32_err _ a1 a2
  · intro h
    rw [hch, round32_refV, h]
    have e := round32_full_negative (w.config / 512 % 8)
    push_cast
    rw [e]
  · intro h
    refine ⟨_, hch, ?_⟩
    obtain ⟨a1, a2⟩ := sample_in_range (w.config / 512 % 8) r (by omega) hlo hhi
    have hF : 0 < refV32 (w.config / 512 % 8) / 32768 := by
      have := (refV32_bounds (w.config / 512 % 8)).1
      positivity
    have hq : (r : ℚ) < 0 := by exact_mod_cast h
    exact round32_neg_of_neg _ (mul_neg_of_neg_of_pos hq hF) a1 a2

theorem readCH_scaling_rounded_witness :
    (readRawCH ⟨0x48⟩ 3 1 (slowBus 2 32768 0x0400 5 9)).1 = some (-32768) ∧
    (readCH ⟨0x48⟩ 3 1 (slowBus 2 32768 0x0400 5 9)).1
      = some (-round32 (getRefV ⟨0x48⟩ (slowBus 2 32768 0x0400 5 9)).1) :=
  match readCH_scaling_rounded ⟨0x48⟩ (slowBus 2 32768 0x0400 5 9) 2 3 1 (-32768)
      (slowBus_reportsComplete _ _ _ _ _) (by decide) (by decide) (by decide) (by decide)
      (by decide) with
  | ⟨_, _, hfs, _, hraw, _, _, _, hmin, _⟩ => ⟨hraw, by rw [hfs]; exact hmin rfl⟩

/-! ## The configuration write of a conversion -/

/-- C4: for every channel c in 0..3 and every state of the device and the bus
(whatever the polling loop does), `readRawCH(c)` issues exactly one register
write, it goes to the configuration register (address 0x01), and the
multiplexer field (bits 14:12) of the written value equals 4 + c. -/
theorem readRawCH_config_write (d : ADS1xx5_7semi) (w : TwoWire) (fuel c : Nat) (hc : c ≤ 3) :
    ∃ v, writesOf (readRawCH d fuel c w).2.log = (REG_CONFIG, v) :: writesOf w.log ∧
      (v >>> 12) &&& 0x07 = 4 + c := by
  have hk8 : (readReg d REG_CONFIG w).1 / 512 % 8 < 8 := Nat.mod_lt _ (by norm_num)
  obtain ⟨hlt, _⟩ := convWord_props (4 + c) (readReg d REG_CONFIG w).1 (by omega)
  refine ⟨0x8183 + (4 + c) * 4096 + ((readReg d REG_CONFIG w).1 / 512 % 8) * 512, ?_,
    convConfig_mux (4 + c) _ (by omega) hk8⟩
  rw [readRawCH_unfold _ _ _ _ hc]
  dsimp only
  have hw : ∀ x : TwoWire, writesOf (waitReady d fuel
        (writeReg d REG_CONFIG (convConfig (((0x4 + c) <<< 12) % 65536)
          (readReg d REG_CONFIG w).1) (readReg d REG_CONFIG w).2).2).2.log = writesOf x.log →
      writesOf x.log = (REG_CONFIG, 0x8183 + (4 + c) * 4096
        + ((readReg d REG_CONFIG w).1 / 512 % 8) * 512) :: writesOf w.log := by
    intro x hx
    rw [← hx, writesOf_waitReady, writesOf_writeReg, writesOf_readReg,
      convConfig_eq (4 + c) _ (by omega), Nat.mod_eq_of_lt hlt]
    rfl
  split
  · exact hw _ (writesOf_readReg d REG_CONVERSION _).symm
  · exact hw _ rfl

theorem readRawCH_config_write_witness :
    ∃ v, writesOf (readRawCH ⟨0x48⟩ 5 2 (simBus 7 0x8583 0 0)).2.log
        = (REG_CONFIG, v) :: writesOf (simBus 7 0x8583 0 0).log ∧
      (v >>> 12) &&& 0x07 = 4 + 2 :=
  readRawCH_config_write ⟨0x48⟩ (simBus 7 0x8583 0 0) 5 2 (by decide)

/-- C5: for every mux_setting m in 0..3 and every state of the device and the
bus, `readDiff(m)` issues exactly one register write, it goes to the
configuration register, and the multiplexer field (bits 14:12) of the written
value equals m itself: bit 14 is clear, there is no offset by 4. -/
theorem readDiff_config_write (d : ADS1xx5_7semi) (w : TwoWire) (fuel m : Nat) (hm : m ≤ 3) :
    ∃ v, writesOf (readDiff d fuel m w).2.log = (REG_CONFIG, v) :: writesOf w.log ∧
      (v >>> 12) &&& 0x07 = m ∧ v &&& 0x4000 = 0 := by
  have hk8 : (readReg d REG_CONFIG w).1 / 512 % 8 < 8 := Nat.mod_lt _ (by norm_num)
  have hm7 : m &&& 0x07 = m := by interval_cases m <;> rfl
  obtain ⟨hlt, _⟩ := convWord_props m (readReg d REG_CONFIG w).1 (by omega)
  refine ⟨0x8183 + m * 4096 + ((readReg d REG_CONFIG w).1 / 512 % 8) * 512, ?_,
    convConfig_mux m _ (by omega) hk8, convConfig_bit14 m _ (by omega) hk8⟩
  rw [readDiff_unfold _ _ _ _ hm]
  dsimp only
  have hw : ∀ x : TwoWire, writesOf (waitReady d fuel
        (writeReg d REG_CONFIG (convConfig (((m &&& 0x07) <<< 12) % 65536)
          (readReg d REG_CONFIG w).1) (readReg d REG_CONFIG w).2).2).2.log = writesOf x.log →
      writesOf x.log = (REG_CONFIG, 0x8183 + m * 4096
        + ((readReg d REG_CONFIG w).1 / 512 % 8) * 512) :: writesOf w.log := by
    intro x hx
    rw [← hx, writesOf_waitReady, writesOf_writeReg, writesOf_readReg, hm7,
      convConfig_eq m _ (by omega), Nat.mod_eq_of_lt hlt]
    rfl
  split
  · refine hw _ ?_
    rw [getRefV_snd, writesOf_readReg, writesOf_readReg]
  · exact hw _ rfl

theorem readDiff_config_write_witness :
    ∃ v, writesOf (readDiff ⟨0x48⟩ 5 3 (simBus 7 0x8583 0 0)).2.log
        = (REG_CONFIG, v) :: writesOf (simBus 7 0x8583 0 0).log ∧
      (v >>> 12) &&& 0x07 = 3 ∧ v &&& 0x4000 = 0 :=
  readDiff_config_write ⟨0x48⟩ (simBus 7 0x8583 0 0) 5 3 (by decide)

/-- C6: for every argument a in 4..255 and every state, `readRawCH(a)` returns 0
and `readDiff(a)` returns 0.0 and neither issues any bus transaction: the
whole state of the bus and the device, log and registers included, is
unchanged. -/
theorem out_of_range_no_transaction (d : ADS1xx5_7semi) (w : TwoWire) (fuel a : Nat)
    (hlo : 4 ≤ a) (_hhi : a ≤ 255) :
    readRawCH d fuel a w = (some 0, w) ∧ readDiff d fuel a w = (some 0, w) := by
  have h : a > 3 := by omega
  constructor
  · simp [readRawCH, h]
  · simp [readDiff, h]

theorem out_of_range_no_transaction_witness :
    readRawCH ⟨0x48⟩ 0 200 (simBus 7 0x8583 0 0) = (some 0, simBus 7 0x8583 0 0) ∧
    readDiff ⟨0x48⟩ 0 200 (simBus 7 0x8583 0 0) = (some 0, simBus 7 0x8583 0 0) :=
  out_of_range_no_transaction ⟨0x48⟩ (simBus 7 0x8583 0 0) 0 200 (by decide) (by decide)

/-! ## Initialisation -/

theorem begin_probe_nack (d : ADS1xx5_7semi) (w : TwoWire)
    (h : w.ack (w.log.length + 1) ≠ 0) :
    begin d w =
      (false,
       { w with
         txAddr := d.address % 256
         txBuf := []
         log := Event.transmit (d.address % 256) [] (w.ack (w.log.length + 1))
                  :: Event.init :: w.log }) := by
  simp [begin, TwoWire.begin, TwoWire.beginTransmission, TwoWire.endTransmission, h]

theorem begin_probe_ack (d : ADS1xx5_7semi) (w : TwoWire)
    (h : w.ack (w.log.length + 1) = 0) :
    begin d w =
      writeReg d REG_CONFIG 0xC583
        { w with
          txAddr := d.address % 256
          txBuf := []
          log := Event.transmit (d.address % 256) [] 0 :: Event.init :: w.log } := by
  simp [begin, TwoWire.begin, TwoWire.beginTransmission, TwoWire.endTransmission, h,
    TwoWire.deliver, OS_SINGLE, MUX_SINGLE_AIN0, PGA_2_048V, MODE_SINGLESHOT, DR_128SPS,
    COMP_MODE_TRAD, COMP_POL_LOW, COMP_LAT_NON, COMP_QUE_DISABLE]

/-- C7: when the zero-length probe transaction is not acknowledged
(`endTransmission` returns non-zero), `begin()` returns false, issues no
register write (the log gains only the session start and the failed probe) and
leaves the four device registers unchanged. -/
theorem begin_not_acknowledged (d : ADS1xx5_7semi) (w : TwoWire)
    (h : w.ack (w.log.length + 1) ≠ 0) :
    (begin d w).1 = false ∧
    (begin d w).2.log =
      Event.transmit (d.address % 256) [] (w.ack (w.log.length + 1)) :: Event.init :: w.log ∧
    writesOf (begin d w).2.log = writesOf w.log ∧
    (begin d w).2.conversion = w.conversion ∧
    (begin d w).2.config = w.config ∧
    (begin d w).2.loThresh = w.loThresh ∧
    (begin d w).2.hiThresh = w.hiThresh := by
  rw [begin_probe_nack d w h]
  simp [writesOf, Event.regWrite]

theorem begin_not_acknowledged_witness :
    (begin ⟨0x48⟩ { simBus 7 0x0000 5 9 with ack := fun _ => 2 }).1 = false ∧
    (begin ⟨0x48⟩ { simBus 7 0x0000 5 9 with ack := fun _ => 2 }).2.config = 0x0000 :=
  have h := begin_not_acknowledged ⟨0x48⟩ { simBus 7 0x0000 5 9 with ack := fun _ => 2 }
    (by decide)
  ⟨h.1, h.2.2.2.2.1⟩

/-- C8: when the probe is acknowledged, `begin()` issues exactly one register
write, to the configuration register (address 0x01), of the value 0xC583, whose
fields are OS = 1, MUX = 4, PGA = 2, MODE = 1, DR = 4, COMP_MODE = 0,
COMP_POL = 0, COMP_LAT = 0, COMP_QUE = 3; `begin()` returns true exactly when
that write is acknowledged, and on a transparent bus `getRefV()` then returns
2.048. -/
theorem begin_acknowledged (d : ADS1xx5_7semi) (w : TwoWire)
    (h : w.ack (w.log.length + 1) = 0) :
    writesOf (begin d w).2.log = (REG_CONFIG, 0xC583) :: writesOf w.log ∧
    (fieldOS 0xC583 = 1 ∧ fieldMUX 0xC583 = 4 ∧ fieldPGA 0xC583 = 2 ∧ fieldMODE 0xC583 = 1 ∧
      fieldDR 0xC583 = 4 ∧ fieldCOMP_MODE 0xC583 = 0 ∧ fieldCOMP_POL 0xC583 = 0 ∧
      fieldCOMP_LAT 0xC583 = 0 ∧ fieldCOMP_QUE 0xC583 = 3) ∧
    ((begin d w).1 = true ↔ w.ack (w.log.length + 2) = 0) ∧
    (Transparent w → (getRefV d (begin d w).2).1 = 2.048) := by
  rw [begin_probe_ack d w h]
  refine ⟨?_, by decide, ?_, ?_⟩
  · rw [writesOf_writeReg]
    simp [writesOf, Event.regWrite, REG_CONFIG]
  · by_cases h2 : w.ack (w.log.length + 2) = 0
    · rw [writeReg_ack _ _ _ _ (by simpa using h2)]
      simp [h2]
    · rw [writeReg_nack _ _ _ _ (by simpa using h2)]
      simp [h2]
  · intro ht
    rw [writeReg_config_tr, getRefV_transparent]
    · dsimp only
      have e : (50563 % 65536) >>> 9 &&& 0x07 = 2 := by decide
      rw [e]
      rfl
    · exact ht.of_env rfl rfl rfl
    · exact ht.of_env rfl rfl rfl
    · norm_num

theorem begin_acknowledged_witness :
    writesOf (begin ⟨0x48⟩ (simBus 7 0x0000 5 9)).2.log
      = (REG_CONFIG, 0xC583) :: writesOf (simBus 7 0x0000 5 9).log ∧
    (begin ⟨0x48⟩ (simBus 7 0x0000 5 9)).1 = true :=
  have h := begin_acknowledged ⟨0x48⟩ (simBus 7 0x0000 5 9) (by decide)
  ⟨h.1, h.2.2.1.mpr (by decide)⟩

/-! ## Read failures -/

theorem readReg_failure (d : ADS1xx5_7semi) (reg : Nat) (w : TwoWire)
    (h : w.ack w.log.length ≠ 0 ∨ w.avail (w.log.length + 1) < 2) :
    (readReg d reg w).1 = 0xFFFF := by
  by_cases ha : w.ack w.log.length = 0
  · rcases h with h | h
    · exact absurd ha h
    · exact (readReg_short d reg w ha h).1
  · rw [readReg_nack d reg w ha]

/-- C9: when either phase of a register read fails (the address-phase
transmission is not acknowledged, or the request for two bytes returns fewer
than two), `readReg` yields the sentinel 0xFFFF, so `getLowThreshold()` and
`getHighThreshold()` return -1 whatever the device registers hold. -/
theorem read_failure_sentinel (d : ADS1xx5_7semi) (w : TwoWire) (reg : Nat)
    (h : w.ack w.log.length ≠ 0 ∨ w.avail (w.log.length + 1) < 2) :
    (readReg d reg w).1 = 0xFFFF ∧
    (getLowThreshold d w).1 = -1 ∧
    (getHighThreshold d w).1 = -1 := by
  have e : toInt16 0xFFFF = -1 := by decide
  refine ⟨readReg_failure d reg w h, ?_, ?_⟩
  · show toInt16 (readReg d REG_LO_THRESH w).1 = -1
    rw [readReg_failure d _ w h, e]
  · show toInt16 (readReg d REG_HI_THRESH w).1 = -1
    rw [readReg_failure d _ w h, e]

theorem read_failure_sentinel_witness :
    (readReg ⟨0x48⟩ REG_CONVERSION { simBus 7 0x8583 5 9 with avail := fun _ => 1 }).1 = 0xFFFF ∧
    (getLowThreshold ⟨0x48⟩ { simBus 7 0x8583 5 9 with avail := fun _ => 1 }).1 = -1 ∧
    (getHighThreshold ⟨0x48⟩ { simBus 7 0x8583 5 9 with avail := fun _ => 1 }).1 = -1 :=
  read_failure_sentinel ⟨0x48⟩ { simBus 7 0x8583 5 9 with avail := fun _ => 1 } REG_CONVERSION
    (Or.inr (by decide))

/-! ## Frame of `setRefV` -/

/-- C10: on a transparent bus, for every 16-bit configuration value old and
every pga_bits inside the gain field (pga_bits & ~0x0E00 = 0), `setRefV(pga_bits)`
leaves the configuration register equal to (old & 0xF1FF) | pga_bits: bits 11:9
become pga_bits, every bit outside bits 11:9 keeps its value, and the
conversion and threshold registers are unchanged. -/
theorem setRefV_frame (d : ADS1xx5_7semi) (w : TwoWire) (pga_bits : Nat)
    (ht : Transparent w) (hold : w.config < 65536) (hp : pga_bits < 65536)
    (hmask : pga_bits &&& not16 0x0E00 = 0) :
    (setRefV d pga_bits w).2.config = (w.config &&& 0xF1FF) ||| pga_bits ∧
    (setRefV d pga_bits w).2.config &&& 0x0E00 = pga_bits ∧
    (setRefV d pga_bits w).2.config &&& 0xF1FF = w.config &&& 0xF1FF ∧
    (setRefV d pga_bits w).2.conversion = w.conversion ∧
    (setRefV d pga_bits w).2.loThresh = w.loThresh ∧
    (setRefV d pga_bits w).2.hiThresh = w.hiThresh := by
  have hm : pga_bits &&& 61951 = 0 := by rw [← not16_gainMask]; exact hmask
  have hlt : (w.config &&& 61951) ||| pga_bits < 65536 := by
    have : (w.config &&& 61951) ||| pga_bits < 2 ^ 16 :=
      Nat.or_lt_two_pow (Nat.and_lt_two_pow _ (by norm_num)) (by simpa using hp)
    simpa using this
  obtain ⟨h1, h2⟩ := setGain_fields w.config pga_bits hp hm
  rw [setRefV_transparent d pga_bits w ht]
  dsimp only
  rw [Nat.mod_eq_of_lt hold, Nat.mod_eq_of_lt hp, Nat.mod_eq_of_lt hlt]
  exact ⟨rfl, h1, h2, rfl, rfl, rfl⟩

theorem setRefV_frame_witness :
    (setRefV ⟨0x48⟩ 0x0600 (simBus 7 0xC583 5 9)).2.config = (0xC583 &&& 0xF1FF) ||| 0x0600 ∧
    (setRefV ⟨0x48⟩ 0x0600 (simBus 7 0xC583 5 9)).2.loThresh = 5 :=
  have h := setRefV_frame ⟨0x48⟩ (simBus 7 0xC583 5 9) 0x0600 (simBus_transparent _ _ _ _)
    (by decide) (by decide) (by decide)
  ⟨h.1, h.2.2.2.2.1⟩

/-! ## A device that never completes -/

theorem NeverReady.same_env {w w1 : TwoWire} (hn : NeverReady w)
    (h1 : w1.ack = w.ack) (h2 : w1.avail = w.avail) (h3 : w1.reply = w.reply) :
    NeverReady w1 := by
  unfold NeverReady at *
  rw [h1, h2, h3]; exact hn

theorem setReg_env (w : TwoWire) (reg v : Nat) :
    (TwoWire.setReg w reg v).ack = w.ack ∧ (TwoWire.setReg w reg v).avail = w.avail ∧
    (TwoWire.setReg w reg v).reply = w.reply ∧ (TwoWire.setReg w reg v).log = w.log := by
  unfold TwoWire.setReg
  split <;> exact ⟨rfl, rfl, rfl, rfl⟩

theorem writeReg_env (d : ADS1xx5_7semi) (reg value : Nat) (w : TwoWire) :
    (writeReg d reg value w).2.ack = w.ack ∧ (writeReg d reg value w).2.avail = w.avail ∧
    (writeReg d reg value w).2.reply = w.reply ∧
    (writeReg d reg value w).2.log.length = w.log.length + 1 := by
  by_cases h : w.ack w.log.length = 0
  · rw [writeReg_ack d reg value w h]
    obtain ⟨h1, h2, h3, _⟩ := setReg_env { w with pointer := reg % 256 } (reg % 256) (value % 65536)
    exact ⟨h1, h2, h3, by simp⟩
  · rw [writeReg_nack d reg value w h]
    exact ⟨rfl, rfl, rfl, by simp⟩

theorem readReg_env (d : ADS1xx5_7semi) (reg : Nat) (w : TwoWire) :
    (readReg d reg w).2.ack = w.ack ∧ (readReg d reg w).2.avail = w.avail ∧
    (readReg d reg w).2.reply = w.reply := by
  by_cases h : w.ack w.log.length = 0
  · by_cases h2 : w.avail (w.log.length + 1) < 2
    · have hk : min (w.avail (w.log.length + 1)) 2 = w.avail (w.log.length + 1) := by omega
      have hne : ¬ (w.avail (w.log.length + 1) = 2) := by omega
      simp [readReg, TwoWire.beginTransmission, TwoWire.write, TwoWire.endTransmission, h,
        TwoWire.deliver, TwoWire.requestFrom, hk, hne]
    · rw [readReg_ok d reg w h (by omega)]
      exact ⟨rfl, rfl, rfl⟩
  · rw [readReg_nack d reg w h]
    exact ⟨rfl, rfl, rfl⟩

theorem waitReady_neverReady (d : ADS1xx5_7semi) (fuel : Nat) (w : TwoWire)
    (hn : NeverReady w) : (waitReady d fuel w).1 = false := by
  induction fuel generalizing w with
  | zero => rfl
  | succ n ih =>
    obtain ⟨e1, e2, e3⟩ := readReg_env d REG_CONFIG w
    have hv : (readReg d REG_CONFIG w).1 &&& OS_SINGLE = 0 := by
      rw [readReg_ok d REG_CONFIG w (hn.1 _) (hn.2.1 _)]
      exact hn.2.2 _ _
    rw [waitReady_succ, if_pos hv]
    exact ih _ (hn.same_env e1 e2 e3)

/-- C11: on a device whose register reads all succeed and whose configuration
register never reads back with the conversion-complete bit (bit 15) set,
`readRawCH(c)` and `readDiff(m)` with a valid argument (0..3) never return: no
amount of polling fuel produces a result. -/
theorem conversion_never_returns (d : ADS1xx5_7semi) (w : TwoWire) (fuel a : Nat)
    (hn : NeverReady w) (ha : a ≤ 3) :
    (readRawCH d fuel a w).1 = none ∧ (readDiff d fuel a w).1 = none := by
  obtain ⟨e1, e2, e3⟩ := readReg_env d REG_CONFIG w
  have hn1 : NeverReady (readReg d REG_CONFIG w).2 := hn.same_env e1 e2 e3
  have hw : ∀ v, (waitReady d fuel (writeReg d REG_CONFIG v (readReg d REG_CONFIG w).2).2).1
      = false := by
    intro v
    obtain ⟨f1, f2, f3, _⟩ := writeReg_env d REG_CONFIG v (readReg d REG_CONFIG w).2
    exact waitReady_neverReady d fuel _ (hn1.same_env f1 f2 f3)
  constructor
  · rw [readRawCH_unfold _ _ _ _ ha]
    simp [hw]
  · rw [readDiff_unfold _ _ _ _ ha]
    simp [hw]

theorem busyBus_neverReady (c f l h : Nat) : NeverReady (busyBus c f l h) := by
  refine ⟨fun _ => rfl, fun _ => Nat.le_refl 2, fun t v => ?_⟩
  show (v &&& 0x7FFF) % 65536 &&& OS_SINGLE = 0
  have h1 : v &&& 0x7FFF < 2 ^ 15 := Nat.and_lt_two_pow _ (by norm_num)
  rw [Nat.mod_eq_of_lt (by omega)]
  apply Nat.eq_of_testBit_eq
  intro i
  have e : OS_SINGLE = 2 ^ 15 := by decide
  rw [e, Nat.testBit_and, Nat.testBit_two_pow, Nat.zero_testBit]
  by_cases hi : 15 = i
  · subst hi; simp [Nat.testBit_lt_two_pow h1]
  · simp [hi]

theorem conversion_never_returns_witness :
    (readRawCH ⟨0x48⟩ 1000 2 (busyBus 7 0x8583 5 9)).1 = none ∧
    (readDiff ⟨0x48⟩ 1000 2 (busyBus 7 0x8583 5 9)).1 = none :=
  conversion_never_returns ⟨0x48⟩ (busyBus 7 0x8583 5 9) 1000 2 (busyBus_neverReady _ _ _ _)
    (by decide)

/-! ## The value written by a conversion -/

theorem readRawCH_writes (d : ADS1xx5_7semi) (w : TwoWire) (fuel c : Nat) (hc : c ≤ 3) :
    writesOf (readRawCH d fuel c w).2.log =
      (REG_CONFIG, 0x8183 + (4 + c) * 4096 + ((readReg d REG_CONFIG w).1 / 512 % 8) * 512)
        :: writesOf w.log := by
  obtain ⟨hlt, _⟩ := convWord_props (4 + c) (readReg d REG_CONFIG w).1 (by omega)
  have hw : writesOf (waitReady d fuel
        (writeReg d REG_CONFIG (convConfig (((0x4 + c) <<< 12) % 65536)
          (readReg d REG_CONFIG w).1) (readReg d REG_CONFIG w).2).2).2.log =
      (REG_CONFIG, 0x8183 + (4 + c) * 4096
        + ((readReg d REG_CONFIG w).1 / 512 % 8) * 512) :: writesOf w.log := by
    rw [writesOf_waitReady, writesOf_writeReg, writesOf_readReg,
      convConfig_eq (4 + c) _ (by omega), Nat.mod_eq_of_lt hlt]
    rfl
  rw [readRawCH_unfold _ _ _ _ hc]
  dsimp only
  split
  · rw [writesOf_readReg]; exact hw
  · exact hw

theorem readDiff_writes (d : ADS1xx5_7semi) (w : TwoWire) (fuel m : Nat) (hm : m ≤ 3) :
    writesOf (readDiff d fuel m w).2.log =
      (REG_CONFIG, 0x8183 + m * 4096 + ((readReg d REG_CONFIG w).1 / 512 % 8) * 512)
        :: writesOf w.log := by
  have hm7 : m &&& 0x07 = m := by interval_cases m <;> rfl
  obtain ⟨hlt, _⟩ := convWord_props m (readReg d REG_CONFIG w).1 (by omega)
  have hw : writesOf (waitReady d fuel
        (writeReg d REG_CONFIG (convConfig (((m &&& 0x07) <<< 12) % 65536)
          (readReg d REG_CONFIG w).1) (readReg d REG_CONFIG w).2).2).2.log =
      (REG_CONFIG, 0x8183 + m * 4096
        + ((readReg d REG_CONFIG w).1 / 512 % 8) * 512) :: writesOf w.log := by
    rw [writesOf_waitReady, writesOf_writeReg, writesOf_readReg, hm7,
      convConfig_eq m _ (by omega), Nat.mod_eq_of_lt hlt]
    rfl
  rw [readDiff_unfold _ _ _ _ hm]
  dsimp only
  split
  · rw [getRefV_snd, writesOf_readReg, writesOf_readReg]; exact hw
  · exact hw

theorem convWord_or (m old : Nat) (hm : m < 8) :
    0x8183 ||| (m <<< 12) ||| (old &&& 0x0E00) = 0x8183 + m * 4096 + (old / 512 % 8) * 512 := by
  have e : (0x0E00 : Nat) = 0x07 <<< 9 := by decide
  rw [e, and_gain_mask]
  have hk : old / 512 % 8 < 8 := Nat.mod_lt _ (by norm_num)
  generalize old / 512 % 8 = k at hk
  interval_cases m <;> interval_cases k <;> rfl

theorem convWord_fields (m k : Nat) (hm : m < 8) (hk : k < 8) :
    fieldOS (0x8183 + m * 4096 + k * 512) = 1 ∧
    fieldMUX (0x8183 + m * 4096 + k * 512) = m ∧
    fieldPGA (0x8183 + m * 4096 + k * 512) = k ∧
    fieldMODE (0x8183 + m * 4096 + k * 512) = 1 ∧
    fieldDR (0x8183 + m * 4096 + k * 512) = 4 ∧
    (0x8183 + m * 4096 + k * 512) &&& 0x1F = 3 ∧
    (0x8183 + m * 4096 + k * 512) &&& 0x8FFF = 0x8183 + k * 512 := by
  interval_cases m <;> interval_cases k <;> decide

/-- C12: for every valid argument a in 0..3 and every configuration value old
returned by the initial read, `readRawCH(a)` writes exactly
0x8183 | ((4 + a) << 12) | (old & 0x0E00) and `readDiff(a)` writes exactly
0x8183 | (a << 12) | (old & 0x0E00) to the configuration register: in both the
gain field is that of old, OS = 1, MODE = 1, DR = 4 and the comparator bits
are 0b00011, and the two values agree outside the multiplexer field. -/
theorem conversion_config_value (d : ADS1xx5_7semi) (w : TwoWire) (fuel a : Nat) (ha : a ≤ 3) :
    let old := (readReg d REG_CONFIG w).1
    let vS := 0x8183 ||| ((4 + a) <<< 12) ||| (old &&& 0x0E00)
    let vD := 0x8183 ||| (a <<< 12) ||| (old &&& 0x0E00)
    writesOf (readRawCH d fuel a w).2.log = (REG_CONFIG, vS) :: writesOf w.log ∧
    writesOf (readDiff d fuel a w).2.log = (REG_CONFIG, vD) :: writesOf w.log ∧
    (fieldPGA vS = fieldPGA old ∧ fieldOS vS = 1 ∧ fieldMODE vS = 1 ∧ fieldDR vS = 4 ∧
      vS &&& 0x1F = 3 ∧ fieldMUX vS = 4 + a) ∧
    (fieldPGA vD = fieldPGA old ∧ fieldOS vD = 1 ∧ fieldMODE vD = 1 ∧ fieldDR vD = 4 ∧
      vD &&& 0x1F = 3 ∧ fieldMUX vD = a) ∧
    vS &&& 0x8FFF = vD &&& 0x8FFF := by
  intro old vS vD
  have hk : old / 512 % 8 < 8 := Nat.mod_lt _ (by norm_num)
  have hS : vS = 0x8183 + (4 + a) * 4096 + (old / 512 % 8) * 512 :=
    convWord_or (4 + a) old (by omega)
  have hD : vD = 0x8183 + a * 4096 + (old / 512 % 8) * 512 := convWord_or a old (by omega)
  have hp : fieldPGA old = old / 512 % 8 := pga_field_eq old
  obtain ⟨s1, s2, s3, s4, s5, s6, s7⟩ := convWord_fields (4 + a) _ (by omega) hk
  obtain ⟨d1, d2, d3, d4, d5, d6, d7⟩ := convWord_fields a _ (by omega) hk
  rw [hS, hD, hp]
  exact ⟨readRawCH_writes d w fuel a ha, readDiff_writes d w fuel a ha,
    ⟨s3, s1, s4, s5, s6, s2⟩, ⟨d3, d1, d4, d5, d6, d2⟩, by rw [s7, d7]⟩

theorem conversion_config_value_witness :
    writesOf (readRawCH ⟨0x48⟩ 3 1 (simBus 7 0x0683 5 9)).2.log
      = (REG_CONFIG, 0x8183 ||| ((4 + 1) <<< 12)
          ||| ((readReg ⟨0x48⟩ REG_CONFIG (simBus 7 0x0683 5 9)).1 &&& 0x0E00))
        :: writesOf (simBus 7 0x0683 5 9).log :=
  (conversion_config_value ⟨0x48⟩ (simBus 7 0x0683 5 9) 3 1 (by decide)).1

/-! ## The mapping of `getRefV` -/

/-- C13: for every configuration value cfg the device returns, `getRefV()`
depends only on the gain field p = (cfg >> 9) & 7: it returns 6.144, 4.096,
2.048, 1.024, 0.512 for p = 0, 1, 2, 3, 4 and 0.256 for each of p = 5, 6, 7, so
its result is always one of the six full-scale constants. -/
theorem getRefV_mapping (d : ADS1xx5_7semi) (w : TwoWire) :
    ([6.144, 4.096, 2.048, 1.024, 0.512, 0.256, 0.256, 0.256] : List ℚ)[
        ((readReg d REG_CONFIG w).1 >>> 9) &&& 0x07]? = some (getRefV d w).1 ∧
    (getRefV d w).1 ∈ gainTable := by
  have e : (getRefV d w).1 = refVOfPga (((readReg d REG_CONFIG w).1 >>> 9) &&& 0x07) := rfl
  have hp : ((readReg d REG_CONFIG w).1 >>> 9) &&& 0x07 < 8 := by
    rw [pga_field_eq]; exact Nat.mod_lt _ (by norm_num)
  rw [e]
  generalize ((readReg d REG_CONFIG w).1 >>> 9) &&& 0x07 = p at hp
  interval_cases p <;> exact ⟨rfl, by simp [gainTable, refVOfPga]⟩

/-! ## Register reads recorded in the log -/

theorem readsOf_readReg (d : ADS1xx5_7semi) (reg : Nat) (w : TwoWire) :
    readsOf (readReg d reg w).2.log = (reg % 256) :: readsOf w.log := by
  by_cases h : w.ack w.log.length = 0
  · by_cases h2 : w.avail (w.log.length + 1) < 2
    · rw [(readReg_short d reg w h h2).2.1]
      simp [readsOf, Event.regRead]
    · rw [readReg_ok d reg w h (by omega)]
      simp [readsOf, Event.regRead]
  · rw [readReg_nack d reg w h]
    simp [readsOf, Event.regRead]

theorem readsOf_writeReg (d : ADS1xx5_7semi) (reg value : Nat) (w : TwoWire) :
    readsOf (writeReg d reg value w).2.log = readsOf w.log := by
  by_cases h : w.ack w.log.length = 0
  · rw [writeReg_ack d reg value w h]
    simp [readsOf, Event.regRead, writeBytes]
  · rw [writeReg_nack d reg value w h]
    simp [readsOf, Event.regRead, writeBytes]

/-! ## A bus on which every read fails -/

theorem AllReadsFail.same_ack {w w1 : TwoWire} (hf : AllReadsFail w)
    (h1 : w1.ack = w.ack) (h2 : w1.avail = w.avail) : AllReadsFail w1 := by
  unfold AllReadsFail at *
  rw [h1, h2]; exact hf

theorem waitReady_allReadsFail (d : ADS1xx5_7semi) (fuel : Nat) (w : TwoWire)
    (hf : AllReadsFail w) :
    waitReady d (fuel + 1) w = (true, (readReg d REG_CONFIG w).2) := by
  have hv : ¬ ((readReg d REG_CONFIG w).1 &&& OS_SINGLE = 0) := by
    rw [readReg_failure d REG_CONFIG w (hf _)]; decide
  rw [waitReady_succ, if_neg hv]

theorem deadBus_allReadsFail (c f l h : Nat) : AllReadsFail (deadBus c f l h) :=
  fun _ => Or.inl (by show (2 : Nat) ≠ 0; decide)

/-- C14: on a bus where every register read fails, `readRawCH(c)` with c in
0..3 does not block: the polling loop exits after exactly one poll (three reads
are started in all: configuration, one poll of the configuration, conversion),
the call returns -1, and the value it attempts to write to the configuration
register is 0x8F83 | ((4 + c) << 12), whose gain field is 7. -/
theorem readRawCH_all_reads_fail (d : ADS1xx5_7semi) (w : TwoWire) (fuel c : Nat)
    (hf : AllReadsFail w) (hc : c ≤ 3) :
    (readRawCH d (fuel + 1) c w).1 = some (-1) ∧
    readsOf (readRawCH d (fuel + 1) c w).2.log
      = REG_CONVERSION :: REG_CONFIG :: REG_CONFIG :: readsOf w.log ∧
    writesOf (readRawCH d (fuel + 1) c w).2.log
      = (REG_CONFIG, 0x8F83 ||| ((4 + c) <<< 12)) :: writesOf w.log ∧
    fieldPGA (0x8F83 ||| ((4 + c) <<< 12)) = 7 := by
  have hold : (readReg d REG_CONFIG w).1 = 0xFFFF := readReg_failure d REG_CONFIG w (hf _)
  have hval : 0x8183 + (4 + c) * 4096 + ((readReg d REG_CONFIG w).1 / 512 % 8) * 512
      = 0x8F83 ||| ((4 + c) <<< 12) := by
    rw [hold]; interval_cases c <;> rfl
  have hpga : fieldPGA (0x8F83 ||| ((4 + c) <<< 12)) = 7 := by
    interval_cases c <;> rfl
  refine ⟨?_, ?_, ?_, hpga⟩
  · obtain ⟨e1, e2, _⟩ := readReg_env d REG_CONFIG w
    have hf1 : AllReadsFail (readReg d REG_CONFIG w).2 := hf.same_ack e1 e2
    rw [readRawCH_unfold _ _ _ _ hc]
    dsimp only
    obtain ⟨f1, f2, _, _⟩ := writeReg_env d REG_CONFIG
      (convConfig (((0x4 + c) <<< 12) % 65536) (readReg d REG_CONFIG w).1)
      (readReg d REG_CONFIG w).2
    have hf2 := hf1.same_ack f1 f2
    rw [waitReady_allReadsFail d fuel _ hf2]
    obtain ⟨g1, g2, _⟩ := readReg_env d REG_CONFIG (writeReg d REG_CONFIG
      (convConfig (((0x4 + c) <<< 12) % 65536) (readReg d REG_CONFIG w).1)
      (readReg d REG_CONFIG w).2).2
    have hf3 := hf2.same_ack g1 g2
    simp only [if_true]
    rw [readReg_failure d REG_CONVERSION _ (hf3 _)]
    rfl
  · obtain ⟨e1, e2, _⟩ := readReg_env d REG_CONFIG w
    have hf1 : AllReadsFail (readReg d REG_CONFIG w).2 := hf.same_ack e1 e2
    rw [readRawCH_unfold _ _ _ _ hc]
    dsimp only
    obtain ⟨f1, f2, _, _⟩ := writeReg_env d REG_CONFIG
      (convConfig (((0x4 + c) <<< 12) % 65536) (readReg d REG_CONFIG w).1)
      (readReg d REG_CONFIG w).2
    rw [waitReady_allReadsFail d fuel _ (hf1.same_ack f1 f2)]
    simp only [if_true]
    rw [readsOf_readReg, readsOf_readReg, readsOf_writeReg, readsOf_readReg]
    rfl
  · rw [readRawCH_writes d w (fuel + 1) c hc, hval]

theorem readRawCH_all_reads_fail_witness :
    (readRawCH ⟨0x48⟩ 1 2 (deadBus 7 0x0683 5 9)).1 = some (-1) ∧
    writesOf (readRawCH ⟨0x48⟩ 1 2 (deadBus 7 0x0683 5 9)).2.log
      = (REG_CONFIG, 0x8F83 ||| ((4 + 2) <<< 12)) :: writesOf (deadBus 7 0x0683 5 9).log :=
  have h := readRawCH_all_reads_fail ⟨0x48⟩ (deadBus 7 0x0683 5 9) 0 2
    (deadBus_allReadsFail _ _ _ _) (by decide)
  ⟨h.1, h.2.2.1⟩

/-! ## `readCH` with an argument out of range -/

/-- C15: for every channel a in 4..255 and every state, `readCH(a)` returns
exactly 0, yet unlike `readRawCH(a)`, which leaves the bus untouched, it issues
exactly one register read, of the configuration register (the one done by
`getRefV`), and no register write. -/
theorem readCH_out_of_range (d : ADS1xx5_7semi) (w : TwoWire) (fuel a : Nat)
    (hlo : 4 ≤ a) (_hhi : a ≤ 255) :
    (readCH d fuel a w).1 = some 0 ∧
    (readCH d fuel a w).2 = (getRefV d w).2 ∧
    readsOf (readCH d fuel a w).2.log = REG_CONFIG :: readsOf w.log ∧
    writesOf (readCH d fuel a w).2.log = writesOf w.log ∧
    (readRawCH d fuel a w).2 = w := by
  have h : a > 3 := by omega
  have h1 : readRawCH d fuel a w = (some 0, w) := by simp [readRawCH, h]
  have h2 : readCH d fuel a w = (some 0, (getRefV d w).2) := by
    unfold readCH
    rw [h1]
    simp [round32_zero]
  rw [h2, h1, getRefV_snd]
  exact ⟨rfl, rfl, readsOf_readReg d REG_CONFIG w, writesOf_readReg d REG_CONFIG w, rfl⟩

theorem readCH_out_of_range_witness :
    (readCH ⟨0x48⟩ 0 9 (simBus 7 0x0683 5 9)).1 = some 0 ∧
    readsOf (readCH ⟨0x48⟩ 0 9 (simBus 7 0x0683 5 9)).2.log
      = REG_CONFIG :: readsOf (simBus 7 0x0683 5 9).log :=
  have h := readCH_out_of_range ⟨0x48⟩ (simBus 7 0x0683 5 9) 0 9 (by decide) (by decide)
  ⟨h.1, h.2.2.1⟩

/-! ## Frame of the conversions -/

theorem frame_props (d : ADS1xx5_7semi) (w s : TwoWire) (ht : Transparent w)
    (hs : Transparent s) (h1 : s.loThresh = w.loThresh) (h2 : s.hiThresh = w.hiThresh)
    (h3 : s.config / 512 % 8 = w.config / 512 % 8) :
    s.loThresh = w.loThresh ∧ s.hiThresh = w.hiThresh ∧
    fieldPGA s.config = fieldPGA w.config ∧ (getRefV d s).1 = (getRefV d w).1 := by
  have e1 : s.config % 65536 / 512 % 8 = s.config / 512 % 8 := by omega
  have e2 : w.config % 65536 / 512 % 8 = w.config / 512 % 8 := by omega
  refine ⟨h1, h2, ?_, ?_⟩
  · unfold fieldPGA
    rw [pga_field_eq, pga_field_eq, h3]
  · rw [getRefV_transparent d s hs, getRefV_transparent d w ht]
    dsimp only
    rw [pga_field_eq, pga_field_eq, e1, e2, h3]

/-- C16: on a transparent bus, `readRawCH`, `readCH` and `readDiff` with any
argument leave the low and high threshold registers and the gain field (bits
11:9) of the configuration register unchanged, so `getRefV()` returns the same
value after the call as before it, and for a valid argument the voltage
`readCH`/`readDiff` return is the raw sample scaled by that same range. -/
theorem conversion_frame (d : ADS1xx5_7semi) (w : TwoWire) (fuel a : Nat)
    (ht : Transparent w) :
    ((readRawCH d (fuel + 1) a w).2.loThresh = w.loThresh ∧
      (readRawCH d (fuel + 1) a w).2.hiThresh = w.hiThresh ∧
      fieldPGA (readRawCH d (fuel + 1) a w).2.config = fieldPGA w.config ∧
      (getRefV d (readRawCH d (fuel + 1) a w).2).1 = (getRefV d w).1) ∧
    ((readCH d (fuel + 1) a w).2.loThresh = w.loThresh ∧
      (readCH d (fuel + 1) a w).2.hiThresh = w.hiThresh ∧
      fieldPGA (readCH d (fuel + 1) a w).2.config = fieldPGA w.config ∧
      (getRefV d (readCH d (fuel + 1) a w).2).1 = (getRefV d w).1) ∧
    ((readDiff d (fuel + 1) a w).2.loThresh = w.loThresh ∧
      (readDiff d (fuel + 1) a w).2.hiThresh = w.hiThresh ∧
      fieldPGA (readDiff d (fuel + 1) a w).2.config = fieldPGA w.config ∧
      (getRefV d (readDiff d (fuel + 1) a w).2).1 = (getRefV d w).1) ∧
    (a ≤ 3 →
      (readCH d (fuel + 1) a w).1
        = some (round32 ((toInt16 w.conversion : ℚ)
            * round32 (round32 (getRefV d w).1 / 32768))) ∧
      (readDiff d (fuel + 1) a w).1
        = some (round32 ((toInt16 w.conversion : ℚ)
            * round32 (round32 (getRefV d w).1 / 32768)))) := by
  have hk8 : w.config / 512 % 8 < 8 := Nat.mod_lt _ (by norm_num)
  have hg : (getRefV d w).1 = refVOfPga (w.config / 512 % 8) := by
    have e2 : w.config % 65536 / 512 % 8 = w.config / 512 % 8 := by omega
    rw [getRefV_transparent d w ht]
    dsimp only
    rw [pga_field_eq, e2]
  rcases Nat.lt_or_ge 3 a with h | h
  · have h1 : readRawCH d (fuel + 1) a w = (some 0, w) := by simp [readRawCH, h]
    have h3 : readDiff d (fuel + 1) a w = (some 0, w) := by simp [readDiff, h]
    have h2 : (readCH d (fuel + 1) a w).2 = (getRefV d w).2 := by
      unfold readCH
      rw [h1]
    refine ⟨?_, ?_, ?_, fun h' => absurd h' (by omega)⟩
    · rw [h1]; exact ⟨rfl, rfl, rfl, rfl⟩
    · have hst : (getRefV d w).2 = (readReg d REG_CONFIG w).2 := rfl
      rw [h2, hst, readReg_config_tr d w ht]
      refine frame_props d w _ ht ?_ ?_ ?_ ?_
      exacts [ht.of_env rfl rfl rfl, rfl, rfl, rfl]
    · rw [h3]; exact ⟨rfl, rfl, rfl, rfl⟩
  · refine ⟨?_, ?_, ?_, fun _ => ⟨?_, ?_⟩⟩
    · rw [readRawCH_transparent d fuel a w ht h]
      refine frame_props d w _ ht ?_ ?_ ?_ ?_
      exacts [ht.of_env rfl rfl rfl, rfl, rfl, convWord_gain _ _ hk8]
    · rw [readCH_transparent d fuel a w ht h]
      refine frame_props d w _ ht ?_ ?_ ?_ ?_
      exacts [ht.of_env rfl rfl rfl, rfl, rfl, convWord_gain _ _ hk8]
    · rw [readDiff_transparent d fuel a w ht h]
      refine frame_props d w _ ht ?_ ?_ ?_ ?_
      exacts [ht.of_env rfl rfl rfl, rfl, rfl, convWord_gain _ _ hk8]
    · rw [readCH_transparent d fuel a w ht h, hg]
    · rw [readDiff_transparent d fuel a w ht h, hg]

theorem conversion_frame_witness :
    (readCH ⟨0x48⟩ 1 2 (simBus 7 0x0683 5 9)).2.loThresh = 5 ∧
    (readCH ⟨0x48⟩ 1 2 (simBus 7 0x0683 5 9)).2.hiThresh = 9 ∧
    fieldPGA (readCH ⟨0x48⟩ 1 2 (simBus 7 0x0683 5 9)).2.config = fieldPGA 0x0683 :=
  have h := conversion_frame ⟨0x48⟩ (simBus 7 0x0683 5 9) 0 2 (simBus_transparent _ _ _ _)
  ⟨h.2.1.1, h.2.1.2.1, h.2.1.2.2.1⟩

/-! ## `setRefV` when the read fails -/

theorem writeReg_config_acked (d : ADS1xx5_7semi) (v : Nat) (w : TwoWire)
    (h : w.ack w.log.length = 0) :
    (writeReg d REG_CONFIG v w).1 = true ∧ (writeReg d REG_CONFIG v w).2.config = v % 65536 := by
  rw [writeReg_ack d REG_CONFIG v w h]
  simp [REG_CONFIG, TwoWire.setReg]

theorem setRefV_unfold (d : ADS1xx5_7semi) (pga_bits : Nat) (w : TwoWire) :
    setRefV d pga_bits w =
      writeReg d REG_CONFIG
        (((readReg d REG_CONFIG w).1 &&& not16 (0x07 <<< 9)) ||| pga_bits % 65536)
        (readReg d REG_CONFIG w).2 := rfl

/-- C17: `setRefV` is not atomic on a read failure: when the read of the
configuration register fails (address phase not acknowledged, or fewer than two
bytes returned) and the write that follows is acknowledged, `setRefV(pga_bits)`
still performs the write and returns true, and the value written and left in
the configuration register is 0xF1FF | pga_bits whatever the register held. -/
theorem setRefV_read_failure (d : ADS1xx5_7semi) (w : TwoWire) (pga_bits : Nat)
    (hp : pga_bits < 65536)
    (h : (w.ack w.log.length ≠ 0 ∧ w.ack (w.log.length + 1) = 0) ∨
         (w.ack w.log.length = 0 ∧ w.avail (w.log.length + 1) < 2 ∧
           w.ack (w.log.length + 2) = 0)) :
    (setRefV d pga_bits w).1 = true ∧
    writesOf (setRefV d pga_bits w).2.log = (REG_CONFIG, 0xF1FF ||| pga_bits) :: writesOf w.log ∧
    (setRefV d pga_bits w).2.config = 0xF1FF ||| pga_bits := by
  have hfail : w.ack w.log.length ≠ 0 ∨ w.avail (w.log.length + 1) < 2 := by
    rcases h with h | h
    · exact Or.inl h.1
    · exact Or.inr h.2.1
  have hold : (readReg d REG_CONFIG w).1 = 0xFFFF := readReg_failure d REG_CONFIG w hfail
  have hmask : (0xFFFF : Nat) &&& not16 (0x07 <<< 9) = 0xF1FF := by decide
  have hlt : 0xF1FF ||| pga_bits < 65536 := by
    have : 0xF1FF ||| pga_bits < 2 ^ 16 :=
      Nat.or_lt_two_pow (by norm_num) (by simpa using hp)
    simpa using this
  obtain ⟨e1, _, _⟩ := readReg_env d REG_CONFIG w
  have hack : (readReg d REG_CONFIG w).2.ack (readReg d REG_CONFIG w).2.log.length = 0 := by
    rw [e1]
    rcases h with h | h
    · rw [readReg_nack d REG_CONFIG w h.1]
      simpa using h.2
    · rw [(readReg_short d REG_CONFIG w h.1 h.2.1).2.1]
      simpa using h.2.2
  obtain ⟨w1, w2⟩ := writeReg_config_acked d (0xF1FF ||| pga_bits) _ hack
  rw [setRefV_unfold, hold, hmask, Nat.mod_eq_of_lt hp]
  refine ⟨w1, ?_, ?_⟩
  · rw [writesOf_writeReg, writesOf_readReg, Nat.mod_eq_of_lt hlt]
    rfl
  · rw [w2, Nat.mod_eq_of_lt hlt]

theorem setRefV_read_failure_witness :
    (setRefV ⟨0x48⟩ 0x0200 { simBus 7 0x0683 5 9 with avail := fun _ => 0 }).1 = true ∧
    (setRefV ⟨0x48⟩ 0x0200 { simBus 7 0x0683 5 9 with avail := fun _ => 0 }).2.config
      = 0xF1FF ||| 0x0200 :=
  have h := setRefV_read_failure ⟨0x48⟩ { simBus 7 0x0683 5 9 with avail := fun _ => 0 } 0x0200
    (by decide) (Or.inr ⟨by decide, by decide, by decide⟩)
  ⟨h.1, h.2.2⟩

/-! ## Wire format of the register primitives -/

theorem writeBytes_of_lt (reg v : Nat) (hreg : reg < 256) (hv : v < 65536) :
    writeBytes reg v = [reg, v >>> 8, v &&& 0xFF] := by
  have e : (0xFF : Nat) = 2 ^ 8 - 1 := by norm_num
  have h1 : v >>> 8 < 256 := by rw [Nat.shiftRight_eq_div_pow]; omega
  have h2 : v &&& 0xFF < 256 := by
    rw [e, Nat.and_pow_two_sub_one_eq_mod]; omega
  unfold writeBytes
  rw [Nat.mod_eq_of_lt hreg, Nat.mod_eq_of_lt hv, Nat.mod_eq_of_lt h1, Nat.mod_eq_of_lt h2]

theorem join_bytes (word : Nat) :
    ((word / 256 % 256) <<< 8) ||| (word % 256) = word % 65536 := by
  rw [Nat.shiftLeft_eq, Nat.mul_comm, ← Nat.mul_add_lt_is_or (by omega)]
  omega

/-- C18: for every register address reg and every 16-bit value v, `writeReg(reg, v)`
sends in one transaction exactly the three bytes reg, v >> 8, v & 0xFF in that
order and returns true exactly when the transaction ends with status 0;
`readReg`, when it succeeds, returns (b0 << 8) | b1 for the two bytes b0, b1
received, and decoding the two data bytes of `writeReg` that way gives v. -/
theorem register_wire_format (d : ADS1xx5_7semi) (w : TwoWire) (reg v : Nat)
    (hreg : reg < 256) (hv : v < 65536) :
    (writeReg d reg v w).2.log =
      Event.transmit (d.address % 256) [reg, v >>> 8, v &&& 0xFF] (w.ack w.log.length)
        :: w.log ∧
    ((writeReg d reg v w).1 = true ↔ w.ack w.log.length = 0) ∧
    (∀ b0 b1 : Nat, w.ack w.log.length = 0 →
      (TwoWire.requestFrom
        (TwoWire.endTransmission
          (TwoWire.write (TwoWire.beginTransmission w d.address) reg)).2
        d.address 2).2.rxBuf = [b0, b1] →
      (readReg d reg w).1 = (b0 <<< 8) ||| b1) ∧
    ((v >>> 8) <<< 8) ||| (v &&& 0xFF) = v := by
  refine ⟨?_, ?_, ?_, ?_⟩
  · rw [← writeBytes_of_lt reg v hreg hv]
    by_cases h : w.ack w.log.length = 0
    · rw [writeReg_ack d reg v w h, h]
    · rw [writeReg_nack d reg v w h]
  · by_cases h : w.ack w.log.length = 0
    · rw [writeReg_ack d reg v w h]; simp [h]
    · rw [writeReg_nack d reg v w h]; simp [h]
  · intro b0 b1 hack hrx
    have h2 : 2 ≤ w.avail (w.log.length + 1) := by
      by_contra hlt
      have hk : min (w.avail (w.log.length + 1)) 2 = w.avail (w.log.length + 1) := by omega
      have hlen := congrArg List.length hrx
      simp [TwoWire.beginTransmission, TwoWire.write, TwoWire.endTransmission, hack,
        TwoWire.deliver, TwoWire.requestFrom, hk] at hlen
      omega
    have hk : min (w.avail (w.log.length + 1)) 2 = 2 := by omega
    rw [readReg_ok d reg w hack h2, ← join_bytes]
    simp [TwoWire.beginTransmission, TwoWire.write, TwoWire.endTransmission, hack,
      TwoWire.deliver, TwoWire.requestFrom, hk] at hrx
    have hg := getReg_congr
      { w with
        pointer := reg % 256
        txAddr := d.address % 256
        txBuf := []
        log := Event.transmit (d.address % 256) [reg % 256] 0 :: w.log } w (reg % 256)
      rfl rfl rfl rfl
    rw [← hg] at hrx
    rw [hrx.1, hrx.2]
  · have e : (0xFF : Nat) = 2 ^ 8 - 1 := by norm_num
    rw [e, Nat.and_pow_two_sub_one_eq_mod, Nat.shiftRight_eq_div_pow, Nat.shiftLeft_eq,
      Nat.mul_comm, ← Nat.mul_add_lt_is_or (by omega)]
    omega

theorem register_wire_format_witness :
    (writeReg ⟨0x48⟩ 2 0xABCD (simBus 7 0x0683 5 9)).2.log =
      Event.transmit (0x48 % 256) [2, 0xABCD >>> 8, 0xABCD &&& 0xFF] 0 :: [] ∧
    ((0xABCD >>> 8) <<< 8) ||| (0xABCD &&& 0xFF) = 0xABCD :=
  have h := register_wire_format ⟨0x48⟩ (simBus 7 0x0683 5 9) 2 0xABCD (by decide) (by decide)
  ⟨h.1, h.2.2.2⟩

end ADS1xx5
